import Mathlib

/-!
# Alert CLI (alert.go): normalisation, filtering, sorting and time rendering

A shallow embedding of the alert processing core of `alert.go`.  The package
level variables of the Go program (`service`, `severity`, `tag`, `sortLabel`,
`allAlertData`, `filteredAlerts`, `alertDetails`, `configJSON`) are passed
explicitly to the functions that read them and returned by those that write
them.  Go's `int` values are integers; none of the arithmetic below can leave
the 64-bit range except `Time.Sub`, whose saturation is modelled.
-/

namespace Alert

/-! ## Library types: package time -/

/-- A `*time.Location` with a fixed offset (seconds east of UTC), as produced by
`time.UTC` and `time.FixedZone`; zones whose offset changes over time are not
represented.  `addr` is the address the pointer holds: Go compares locations
as pointers, and the location a `Time` holds for UTC is always the same one,
of address 0.  Name and offset are determined by the address, so two
locations are the same pointer exactly when the three fields agree; a zone
made by `time.FixedZone("UTC", 0)` has name UTC and offset 0 and is not
`time.UTC`. -/
structure Location where
  addr : Nat
  name : String
  offset : Int
deriving DecidableEq

/-- The location `time.UTC`. -/
def UTC : Location := ⟨0, "UTC", 0⟩

/-- A `time.Time` without monotonic clock reading: Unix seconds, nanoseconds
within the second, and the location.  Go's `==` on such values is equality of
the three fields, the location compared as a pointer. -/
structure Time where
  sec : Int
  nsec : Nat
  loc : Location
deriving DecidableEq

/-- Days from 1970-01-01 to the given date of the proleptic Gregorian calendar
(the calendar of package time); `day` may run past the end of the month. -/
def daysFromCivil (year month day : Int) : Int :=
  let y := if month ≤ 2 then year - 1 else year
  let era := y / 400
  let yoe := y - era * 400
  let mp := if month > 2 then month - 3 else month + 9
  let doy := (153 * mp + 2) / 5 + day - 1
  let doe := yoe * 365 + yoe / 4 - yoe / 100 + doy
  era * 146097 + doe - 719468

/-- The date (year, month, day) of the proleptic Gregorian calendar that lies
`days` days after 1970-01-01. -/
def civilFromDays (days : Int) : Int × Int × Int :=
  let z := days + 719468
  let era := z / 146097
  let doe := z - era * 146097
  let yoe := (doe - doe / 1460 + doe / 36524 - doe / 146096) / 365
  let doy := doe - (365 * yoe + yoe / 4 - yoe / 100)
  let mp := (5 * doy + 2) / 153
  let d := doy - (153 * mp + 2) / 5 + 1
  let m := if mp < 10 then mp + 3 else mp - 9
  let y := yoe + era * 400
  (if m ≤ 2 then y + 1 else y, m, d)

/-- Seconds since the Unix epoch on the wall clock of the time's location. -/
def Time.wallSeconds (t : Time) : Int := t.sec + t.loc.offset

/-- The method `Time.Date`: year, month, day in the time's location. -/
def Time.Date (t : Time) : Int × Int × Int := civilFromDays (t.wallSeconds / 86400)

/-- The method `Time.Clock`: hour, minute, second in the time's location. -/
def Time.Clock (t : Time) : Int × Int × Int :=
  let s := t.wallSeconds % 86400
  (s / 3600, s % 3600 / 60, s % 60)

/-- The method `Time.Day`. -/
def Time.Day (t : Time) : Int := t.Date.2.2

/-- The method `Time.After`: comparison of the instants. -/
def Time.After (t u : Time) : Bool :=
  decide (t.sec > u.sec) || (decide (t.sec = u.sec) && decide (t.nsec > u.nsec))

/-- The method `Time.In`: the same instant, in another location. -/
def Time.In (t : Time) (loc : Location) : Time := { t with loc := loc }

/-- The function `time.Date(year, month, day, hour, min, sec, 0, loc)`; values
outside their usual range are normalised, so day 32 of a month is a day early
in the next month. -/
def timeDate (year month day hour min sec : Int) (loc : Location) : Time :=
  let m := month - 1
  let y := year + m / 12
  let mo := m % 12 + 1
  ⟨(daysFromCivil y mo 1 + (day - 1)) * 86400 + hour * 3600 + min * 60 + sec - loc.offset, 0, loc⟩

/-- The largest `time.Duration` (nanoseconds in an int64). -/
def maxDuration : Int := 9223372036854775807

/-- The smallest `time.Duration`. -/
def minDuration : Int := -9223372036854775808

/-- The method `Time.Sub`: the duration `t - u` in nanoseconds; when it does
not fit a `Duration` the largest (or smallest) duration is returned. -/
def Time.Sub (t u : Time) : Int :=
  let d := (t.sec - u.sec) * 1000000000 + ((t.nsec : Int) - (u.nsec : Int))
  if d < minDuration then minDuration else if d > maxDuration then maxDuration else d

/-! ## Library functions: strconv, strings, maps, sort -/

/-- The function `strconv.Itoa`. -/
def Itoa (i : Int) : String :=
  if i < 0 then "-" ++ Nat.repr i.natAbs else Nat.repr i.toNat

/-- The function `unicode.ToLower` on the runes that it maps to an ASCII
character: the letters A to Z, U+0130 (capital I with dot above, to i) and
U+212A (Kelvin sign, to k).  Every other rune is kept; Go maps it to itself or
to another rune outside ASCII. -/
def lowerRune (r : Char) : Char :=
  if r = Char.ofNat 304 then 'i' else if r = Char.ofNat 8490 then 'k' else r.toLower

/-- The function `strings.ToLower`, rune by rune.  It agrees with Go on every
rune whose image is an ASCII character, so a comparison of the result with a
word of ASCII letters has the value it has in Go. -/
def ToLower (s : String) : String := ⟨s.data.map lowerRune⟩

/-- Reading `m[key]` of a Go map with string keys, held as a list of entries
with distinct keys; a missing key reads as the zero value. -/
def mapGet {V : Type} (zero : V) (m : List (String × V)) (key : String) : V :=
  match m with
  | [] => zero
  | (k, v) :: rest => if k = key then v else mapGet zero rest key

/-- The assignment `m[key] = value` of a Go map. -/
def mapSet {V : Type} (m : List (String × V)) (key : String) (value : V) : List (String × V) :=
  match m with
  | [] => [(key, value)]
  | (k, v) :: rest => if k = key then (k, value) :: rest else (k, v) :: mapSet rest key value

/-- The method `Swap(i, j)` of the sorter types: `d[i], d[j] = d[j], d[i]`. -/
def swap {α : Type} (d : List α) (i j : Nat) : List α :=
  match d[i]?, d[j]? with
  | some x, some y => (d.set i y).set j x
  | _, _ => d

/-- The inner loop of `insertionSort` in package sort,
`for j := i; j > 0 && data.Less(j, j-1); j-- { data.Swap(j, j-1) }`,
started at `j`. -/
def insertionInner {α : Type} (less : α → α → Bool) : Nat → List α → List α
  | 0, d => d
  | j + 1, d =>
    match d[j + 1]?, d[j]? with
    | some x, some y => if less x y then insertionInner less j (swap d (j + 1) j) else d
    | _, _ => d

/-- The function `insertionSort(data, 0, data.Len())` of package sort:
`for i := 1; i < n; i++` around the inner loop.  `less x y` stands for
`data.Less(i, j)` with `x = data[i]` and `y = data[j]`.  It is what `sort.Sort`
runs on a short slice, and the concrete inputs below are sorted with it. -/
def insertionSort {α : Type} (less : α → α → Bool) (d : List α) : List α :=
  (List.range' 1 (d.length - 1)).foldl (fun d i => insertionInner less i d) d

/-- One inner loop of the insertion sort on the reversed sorted part: `x`
passes every element it is less than. -/
def insertLeft {α : Type} (less : α → α → Bool) (x : α) : List α → List α
  | [] => [x]
  | y :: ys => if less x y then y :: insertLeft less x ys else x :: y :: ys

/-- The insertion sort with the sorted part held reversed. -/
def insertAll {α : Type} (less : α → α → Bool) : List α → List α → List α
  | rev, [] => rev.reverse
  | rev, x :: rest => insertAll less (insertLeft less x rev) rest

/-! ## Data model of alert.go -/

/-- The struct `alertData` (tabular record). -/
structure alertData where
  Name : String
  Service : String
  Tag : String
  Severity : String
  StartsAt : Time
  EndsAt : Time
deriving DecidableEq

/-- The struct `alertDataJSON`. -/
structure alertDataJSON where
  Name : String
  Service : String
  Tag : String
  Severity : String
  Starts : String
  Ends : String
  Duration : String
deriving DecidableEq

/-- A decoded JSON value held in an `interface{}`: a string, or something that
is not a string. -/
inductive Value where
  | str (s : String)
  | bool (b : Bool)
  | number (literal : String)
  | null
  | composite (json : String)
deriving DecidableEq

/-- The struct `amJSON`; the maps are lists of entries, ranged over in list
order. -/
structure amJSON where
  Labels : List (String × Value)
  Annotations : List (String × Value)
  StartsAt : Time
  EndsAt : Time
deriving DecidableEq

/-- The struct `amData`. -/
structure amData where
  Data : List amJSON
deriving DecidableEq

/-- The variable `maxtstmp`. -/
def maxtstmp : Int := 32516091806

/-- The value `time.Unix(maxtstmp, 0).UTC()`. -/
def sentinel : Time := ⟨maxtstmp, 0, UTC⟩

/-! ## Normalisation -/

/-- The body of `for key, value := range each.Labels` in `mergeData`; `none`
is the panic of a failed type assertion `value.(string)`. -/
def mergeLabels (each : amJSON) :
    List (String × Value) → List (String × amJSON) → alertData →
      Option (List (String × amJSON) × alertData)
  | [], alertDetails, temp => some (alertDetails, temp)
  | (key, value) :: rest, alertDetails, temp =>
    if key = "alertname" then
      match value with
      | Value.str s => mergeLabels each rest (mapSet alertDetails s each) { temp with Name := s }
      | _ => none
    else if key = "severity" then
      match value with
      | Value.str s => mergeLabels each rest alertDetails { temp with Severity := s }
      | _ => none
    else if key = "service" then
      match value with
      | Value.str s => mergeLabels each rest alertDetails { temp with Service := s }
      | _ => none
    else if key = "tag" then
      match value with
      | Value.str s => mergeLabels each rest alertDetails { temp with Tag := s }
      | _ => none
    else mergeLabels each rest alertDetails temp

/-- The zero value of `time.Time`, January 1 of year 1, 00:00 UTC. -/
def zeroTime : Time := ⟨-62135596800, 0, UTC⟩

/-- The loop `for _, each := range amdata.Data` of `mergeData`. -/
def mergeLoop :
    List amJSON → List (String × amJSON) → List alertData →
      Option (List (String × amJSON) × List alertData)
  | [], alertDetails, allAlertData => some (alertDetails, allAlertData)
  | each :: rest, alertDetails, allAlertData =>
    match mergeLabels each each.Labels alertDetails ⟨"", "", "", "", zeroTime, zeroTime⟩ with
    | none => none
    | some (alertDetails, temp) =>
      mergeLoop rest alertDetails
        (allAlertData ++ [{ temp with StartsAt := each.StartsAt, EndsAt := each.EndsAt }])

/-- The function `mergeData`: the new `alertDetails` and `allAlertData`. -/
def mergeData (amdata : amData) (allAlertData : List alertData) :
    Option (List (String × amJSON) × List alertData) :=
  mergeLoop amdata.Data [] allAlertData

/-- The string held under a label, or the empty string. -/
def labelString (labels : List (String × Value)) (key : String) : String :=
  match mapGet Value.null labels key with
  | Value.str s => s
  | _ => ""

/-- The normalised record the specification gives for a raw alert: the four
recognised labels and the two instants. -/
def normalized (each : amJSON) : alertData :=
  ⟨labelString each.Labels "alertname", labelString each.Labels "service",
    labelString each.Labels "tag", labelString each.Labels "severity",
    each.StartsAt, each.EndsAt⟩

/-- The label keys `mergeData` recognises. -/
def recognised (key : String) : Bool :=
  key = "alertname" || key = "severity" || key = "service" || key = "tag"

/-! ## Time difference -/

/-- The function `diff` from `y1, M1, d1 := a.Date()` on: the component-wise
difference of `b` and `a` with the borrows, `a` being the earlier instant. -/
def diffFields (a b : Time) : List Int :=
  let (y1, M1, d1) := a.Date
  let (y2, M2, d2) := b.Date
  let (h1, m1, s1) := a.Clock
  let (h2, m2, s2) := b.Clock
  let year := y2 - y1
  let month := M2 - M1
  let day := d2 - d1
  let hour := h2 - h1
  let min := m2 - m1
  let sec := s2 - s1
  let (sec, min) := if sec < 0 then (sec + 60, min - 1) else (sec, min)
  let (min, hour) := if min < 0 then (min + 60, hour - 1) else (min, hour)
  let (hour, day) := if hour < 0 then (hour + 24, day - 1) else (hour, day)
  let (day, month) :=
    if day < 0 then (day + (32 - (timeDate y1 M1 32 0 0 0 UTC).Day), month - 1) else (day, month)
  let (month, year) := if month < 0 then (month + 12, year - 1) else (month, year)
  [year, month, day, hour, min, sec]

/-- The function `diff`: `b` is brought to the location of `a`, the two are
put in order, and the components are taken. -/
def diff (a b : Time) : List Int :=
  let b := if a.loc ≠ b.loc then b.In a.loc else b
  if a.After b then diffFields b a else diffFields a b

/-- The loop of `timeDiffHelper` from index `ind` on, with `dif` so far. -/
def timeDiffHelperFrom (ind : Nat) (timeList : List Int) (dif : String) : String :=
  match timeList with
  | [] => dif
  | v :: rest =>
    timeDiffHelperFrom (ind + 1) rest
      (if v > 0 then
        match ind with
        | 0 => dif ++ (Itoa v ++ "Y ")
        | 1 => dif ++ (Itoa v ++ "M ")
        | 2 => dif ++ (Itoa v ++ "D ")
        | 3 => dif ++ (Itoa v ++ "h ")
        | 4 => dif ++ (Itoa v ++ "m ")
        | 5 => dif ++ (Itoa v ++ "s ")
        | _ => dif
      else dif)

/-- The function `timeDiffHelper`. -/
def timeDiffHelper (timeList : List Int) : String := timeDiffHelperFrom 0 timeList ""

/-- The function `timeDiff`. -/
def timeDiff (t1 t2 : Time) (duration : Int) : String :=
  if t1.After t2 then timeDiffHelper (diff t1 t2) ++ "AGO"
  else if duration = 1 then timeDiffHelper (diff t2 t1)
  else "IN " ++ timeDiffHelper (diff t2 t1)

/-- The rendering the specification describes: the segments "<value><letter> "
of the strictly positive components, in the order Y, M, D, h, m, s. -/
def renderUnits (components : List Int) : String :=
  String.join (((components.zip ["Y", "M", "D", "h", "m", "s"]).filter
    (fun p => decide (0 < p.1))).map (fun p => Itoa p.1 ++ p.2 ++ " "))

/-! ## Filtering -/

/-- The function `filterHelper`, with the package variables `service`,
`severity` and `tag` as arguments; the eight-way chain of the source is kept. -/
def filterHelper (service severity tag : String) (each : alertData) : Int :=
  if service = "" ∧ severity = "" ∧ tag = "" then 1
  else if service = "" ∧ severity = "" ∧ tag = each.Tag then 1
  else if service = "" ∧ severity = each.Severity ∧ tag = "" then 1
  else if service = "" ∧ severity = each.Severity ∧ tag = each.Tag then 1
  else if service = each.Service ∧ severity = "" ∧ tag = "" then 1
  else if service = each.Service ∧ severity = "" ∧ tag = each.Tag then 1
  else if service = each.Service ∧ severity = each.Severity ∧ tag = "" then 1
  else if service = each.Service ∧ severity = each.Severity ∧ tag = each.Tag then 1
  else 0

/-- The loop of `filter`, with the map `filteredAlerts` built so far. -/
def filterLoop (service severity tag : String) :
    List alertData → List (String × Int) → List (String × Int)
  | [], filteredAlerts => filteredAlerts
  | each :: rest, filteredAlerts =>
    if filterHelper service severity tag each = 0 then
      filterLoop service severity tag rest filteredAlerts
    else filterLoop service severity tag rest (mapSet filteredAlerts each.Name 1)

/-- The function `filter`: the new map `filteredAlerts`. -/
def filter (service severity tag : String) (allAlertData : List alertData) :
    List (String × Int) :=
  filterLoop service severity tag allAlertData []

/-! ## Sorting -/

/-- The method `durationSorter.Less(i, j)` with `x = d[i]`, `y = d[j]`. -/
def durationSorter.Less (x y : alertData) : Bool :=
  decide (x.EndsAt.Sub x.StartsAt ≤ y.EndsAt.Sub y.StartsAt)

/-- The method `severitySorter.Less(i, j)` with `x = s[i]`, `y = s[j]`. -/
def severitySorter.Less (SeverityLevels : List (String × Int)) (x y : alertData) : Bool :=
  decide (mapGet 0 SeverityLevels x.Severity < mapGet 0 SeverityLevels y.Severity)

/-- The method `startAtSorter.Less(i, j)` with `x = s[i]`, `y = s[j]`. -/
def startAtSorter.Less (x y : alertData) : Bool := y.StartsAt.After x.StartsAt

/-- The method `endsAtSorter.Less(i, j)` with `x = e[i]`, `y = e[j]`. -/
def endsAtSorter.Less (x y : alertData) : Bool := y.EndsAt.After x.EndsAt

/-- What is used of the library routine `sort.Sort`, which is not part of the
program, as the documentation of package sort gives it: it only swaps
elements, and for a `Less` that is a transitive ordering (when `Less(i, j)` and
`Less(j, k)` hold so does `Less(i, k)`, and when neither holds `Less(i, k)`
does not) the result is in ascending order as determined by `Less`: an element
is less than one before it only if the two are less than each other both ways.
For a strict `Less` no element is less than one before it; for the `<=` of
`durationSorter` the keys do not decrease. -/
structure SortSpec
    (sortSort : (alertData → alertData → Bool) → List alertData → List alertData) : Prop where
  perm : ∀ less d, (sortSort less d).Perm d
  sorted : ∀ less : alertData → alertData → Bool,
    (∀ x y z, less x y = true → less y z = true → less x z = true) →
    (∀ x y z, less x y = false → less y z = false → less x z = false) →
    ∀ d, (sortSort less d).Pairwise (fun x y => less y x = true → less x y = true)

/-- The function `sortAlert`: the new `allAlertData`.  `sortSort` is the
library routine `sort.Sort` applied to the sorter's `Less`. -/
def sortAlert (sortSort : (alertData → alertData → Bool) → List alertData → List alertData)
    (SeverityLevels : List (String × Int)) (sortLabel : String)
    (allAlertData : List alertData) : List alertData :=
  if ToLower sortLabel = "severity" then
    sortSort (severitySorter.Less SeverityLevels) allAlertData
  else if ToLower sortLabel = "starts" then sortSort startAtSorter.Less allAlertData
  else if ToLower sortLabel = "ends" then sortSort endsAtSorter.Less allAlertData
  else if ToLower sortLabel = "duration" then sortSort durationSorter.Less allAlertData
  else allAlertData

/-! ## Rendering -/

/-- The loop of `jsonPrint`: `now k` is the value of the k-th call of
`time.Now()`, `temp` and `filteredData` are the variables of the source. -/
def jsonPrintLoop (now : Nat → Time) (filteredAlerts : List (String × Int)) :
    List alertData → Nat → alertDataJSON → List alertDataJSON → List alertDataJSON
  | [], _, _, filteredData => filteredData
  | each :: rest, k, temp, filteredData =>
    if mapGet 0 filteredAlerts each.Name = 1 then
      let temp := { temp with
        Name := each.Name, Service := each.Service, Severity := each.Service, Tag := each.Tag,
        Starts := timeDiff (now k) each.StartsAt 0 }
      if each.EndsAt = sentinel then
        let temp := { temp with Ends := "Undefined", Duration := "Undefined" }
        jsonPrintLoop now filteredAlerts rest (k + 1) temp (filteredData ++ [temp])
      else
        let temp := { temp with
          Ends := timeDiff (now (k + 1)) each.EndsAt 0,
          Duration := timeDiff each.StartsAt each.EndsAt 1 }
        jsonPrintLoop now filteredAlerts rest (k + 2) temp (filteredData ++ [temp])
    else jsonPrintLoop now filteredAlerts rest k temp filteredData

/-- The function `jsonPrint` up to the slice `filteredData` that is handed to
`json.Marshal` and printed. -/
def jsonPrint (now : Nat → Time) (filteredAlerts : List (String × Int))
    (allAlertData : List alertData) : List alertDataJSON :=
  jsonPrintLoop now filteredAlerts allAlertData 0 ⟨"", "", "", "", "", "", ""⟩ []

/-- The row loop of `tabulate`: the text written to the tabwriter for each
rendered record, the two or three `Fprintf` calls of a row joined. -/
def tabulateLoop (now : Nat → Time) (filteredAlerts : List (String × Int)) :
    List alertData → Nat → List String
  | [], _ => []
  | each :: rest, k =>
    if mapGet 0 filteredAlerts each.Name = 1 then
      let row := " " ++ each.Name ++ "\t\t" ++ each.Service ++ "\t\t" ++ each.Tag ++ "\t\t" ++
        each.Severity ++ "\t\t" ++ timeDiff (now k) each.StartsAt 0
      if each.EndsAt = sentinel then
        (row ++ ("\t\t" ++ "Undefined") ++ ("\t\t" ++ "Undefined" ++ "\n")) ::
          tabulateLoop now filteredAlerts rest (k + 1)
      else
        (row ++ ("\t\t" ++ timeDiff (now (k + 1)) each.EndsAt 0) ++
            ("\t\t" ++ timeDiff each.StartsAt each.EndsAt 1 ++ "\n")) ::
          tabulateLoop now filteredAlerts rest (k + 2)
    else tabulateLoop now filteredAlerts rest k

/-- The function `tabulate`: the text written to the tabwriter, as the header
line and the rows of the rendered records. -/
def tabulate (Columns : List String) (now : Nat → Time) (filteredAlerts : List (String × Int))
    (allAlertData : List alertData) : String × List String :=
  ("\n " ++ String.join (Columns.map (fun each => each ++ "\t\t")) ++ "\n",
    tabulateLoop now filteredAlerts allAlertData 0)

/-- The record `jsonPrint` builds for `each` when `k` calls of `time.Now()`
came before. -/
def jsonRecord (now : Nat → Time) (k : Nat) (each : alertData) : alertDataJSON :=
  { Name := each.Name, Service := each.Service, Tag := each.Tag, Severity := each.Service,
    Starts := timeDiff (now k) each.StartsAt 0,
    Ends := if each.EndsAt = sentinel then "Undefined" else timeDiff (now (k + 1)) each.EndsAt 0,
    Duration :=
      if each.EndsAt = sentinel then "Undefined" else timeDiff each.StartsAt each.EndsAt 1 }

/-- The row `tabulate` writes for `each` when `k` calls of `time.Now()` came
before. -/
def tableRow (now : Nat → Time) (k : Nat) (each : alertData) : String :=
  " " ++ each.Name ++ "\t\t" ++ each.Service ++ "\t\t" ++ each.Tag ++ "\t\t" ++
    each.Severity ++ "\t\t" ++ timeDiff (now k) each.StartsAt 0 ++
    ("\t\t" ++
      (if each.EndsAt = sentinel then "Undefined" else timeDiff (now (k + 1)) each.EndsAt 0)) ++
    ("\t\t" ++
      (if each.EndsAt = sentinel then "Undefined" else timeDiff each.StartsAt each.EndsAt 1) ++
      "\n")

/-- The records that are rendered: those whose name reads 1 in
`filteredAlerts`. -/
def rendered (filteredAlerts : List (String × Int)) (allAlertData : List alertData) :
    List alertData :=
  allAlertData.filter (fun each => decide (mapGet 0 filteredAlerts each.Name = 1))

/-! ## Concrete inputs -/

/-- The exact difference `endsAt - startsAt` of a record, in nanoseconds. -/
def elapsed (x : alertData) : Int :=
  (x.EndsAt.sec - x.StartsAt.sec) * 1000000000 + ((x.EndsAt.nsec : Int) - (x.StartsAt.nsec : Int))

/-- The rank table {info:0, warning:1, high:3, urgent:5}. -/
def rankTable : List (String × Int) := [("info", 0), ("warning", 1), ("high", 3), ("urgent", 5)]

/-- An open-ended alert that started 2020-01-01T00:00:00Z. -/
def openEarly : alertData := ⟨"early", "GGUS", "cms", "high", ⟨1577836800, 0, UTC⟩, sentinel⟩

/-- An open-ended alert that started 2021-01-01T00:00:00Z. -/
def openLate : alertData := ⟨"late", "GGUS", "cms", "high", ⟨1609459200, 0, UTC⟩, sentinel⟩

/-- An alert of one hour, from 2021-01-01T00:00:00Z. -/
def hourFirst : alertData :=
  ⟨"first", "GGUS", "cms", "high", ⟨1609459200, 0, UTC⟩, ⟨1609462800, 0, UTC⟩⟩

/-- An alert of one hour, from 2021-01-02T00:00:00Z. -/
def hourSecond : alertData :=
  ⟨"second", "GGUS", "cms", "high", ⟨1609545600, 0, UTC⟩, ⟨1609549200, 0, UTC⟩⟩

/-- Three alerts with the severities urgent, info, high. -/
def threeAlerts : List alertData :=
  [⟨"a", "GGUS", "cms", "urgent", ⟨1609459200, 0, UTC⟩, sentinel⟩,
   ⟨"b", "SSB", "cms", "info", ⟨1609459300, 0, UTC⟩, sentinel⟩,
   ⟨"c", "dbs", "cmsweb", "high", ⟨1609459100, 0, UTC⟩, sentinel⟩]

/-- A zone made by `time.FixedZone("UTC", 0)`: the name and the offset of
`time.UTC`, at another address. -/
def fixedZoneUTC : Location := ⟨2, "UTC", 0⟩

/-- An alert whose end is the instant of the sentinel, held in
`fixedZoneUTC`. -/
def openElsewhere : alertData :=
  ⟨"open", "GGUS", "cms", "high", ⟨1609459200, 0, UTC⟩, ⟨32516091806, 0, fixedZoneUTC⟩⟩

/-- Eight alerts of severity high: open-ended ones and ones of one, two and
three hours. -/
def eightAlerts : List alertData :=
  [⟨"a", "GGUS", "cms", "high", ⟨1609459200, 0, UTC⟩, sentinel⟩,
   ⟨"b", "GGUS", "cms", "high", ⟨1609459200, 0, UTC⟩, ⟨1609470000, 0, UTC⟩⟩,
   ⟨"c", "GGUS", "cms", "high", ⟨1609459200, 0, UTC⟩, ⟨1609462800, 0, UTC⟩⟩,
   ⟨"d", "GGUS", "cms", "high", ⟨1577836800, 0, UTC⟩, sentinel⟩,
   ⟨"e", "GGUS", "cms", "high", ⟨1609459200, 0, UTC⟩, ⟨1609466400, 0, UTC⟩⟩,
   ⟨"f", "GGUS", "cms", "high", ⟨1609459300, 0, UTC⟩, ⟨1609462900, 0, UTC⟩⟩,
   ⟨"g", "GGUS", "cms", "high", ⟨1609459200, 0, UTC⟩, ⟨1609459200, 0, UTC⟩⟩,
   ⟨"h", "GGUS", "cms", "high", ⟨1609459200, 0, UTC⟩, ⟨1609470000, 0, UTC⟩⟩]

/-- The instant 2021-01-01T00:00:00Z. -/
def exampleFrom : Time := ⟨1609459200, 0, UTC⟩

/-- The instant 2021-03-02T01:00:05Z. -/
def exampleTo : Time := ⟨1614646805, 0, UTC⟩

/-- The instant 2021-02-28T23:30:00Z. -/
def lateFebruary : Time := ⟨1614555000, 0, UTC⟩

/-- The instant 2021-04-01T00:00:00+01:00, in a zone one hour east of UTC. -/
def aprilFirst : Time := ⟨1617231600, 0, ⟨1, "", 3600⟩⟩

/-- An alert that has the name of `hourFirst` and differs from it otherwise. -/
def hourFirstTwin : alertData :=
  ⟨"first", "SSB", "cmsweb", "info", ⟨1609459800, 0, UTC⟩, sentinel⟩

/-- Two raw alerts: one with all four recognised labels and a further one, one
with an alert name only. -/
def sampleData : amData :=
  ⟨[⟨[("alertname", Value.str "ssb-OTG0058113"), ("severity", Value.str "high"),
        ("service", Value.str "SSB"), ("tag", Value.str "cms"), ("instance", Value.number "7")],
      [("summary", Value.str "disk")], ⟨1609459200, 0, UTC⟩, sentinel⟩,
    ⟨[("alertname", Value.str "ggus-1")], [], ⟨1609459300, 0, UTC⟩, ⟨1609462800, 0, UTC⟩⟩]⟩

/-! ## Theorems -/

/-! ### Filtering: the predicate -/

/-- C1: `filterHelper` returns 1 exactly when each of the three criteria is
empty or equal (as a string, exactly) to the record's field, and returns 0
otherwise; the service criterion "ggus" does not match the service "GGUS". -/
theorem filterHelper_iff (service severity tag : String) (r : alertData) :
    (filterHelper service severity tag r = 1 ↔
      (service = "" ∨ service = r.Service) ∧ (severity = "" ∨ severity = r.Severity) ∧
        (tag = "" ∨ tag = r.Tag)) ∧
    (¬ ((service = "" ∨ service = r.Service) ∧ (severity = "" ∨ severity = r.Severity) ∧
        (tag = "" ∨ tag = r.Tag)) → filterHelper service severity tag r = 0) ∧
    filterHelper "GGUS" "" "" hourFirst = 1 ∧ filterHelper "ggus" "" "" hourFirst = 0 := by
  refine ⟨?_, ?_, by decide, by decide⟩ <;> unfold filterHelper <;>
  by_cases h1 : service = "" <;> by_cases h2 : severity = "" <;> by_cases h3 : tag = "" <;>
    by_cases h4 : service = r.Service <;> by_cases h5 : severity = r.Severity <;>
    by_cases h6 : tag = r.Tag <;> simp [h1, h2, h3, h4, h5, h6]

/-! ### Package sort: the insertion sort

The index-based loops of `insertionSort` are related to `insertAll`, on which
permutation, order and stability are proved. -/

theorem swap_adjacent {α : Type} (pre : List α) (y x : α) (suf : List α) :
    swap (pre ++ y :: x :: suf) (pre.length + 1) pre.length = pre ++ x :: y :: suf := by
  have h1 : (pre ++ y :: x :: suf)[pre.length + 1]? = some x := by
    rw [List.getElem?_append_right (by omega)]; simp
  have h2 : (pre ++ y :: x :: suf)[pre.length]? = some y := by
    rw [List.getElem?_append_right (by omega)]; simp
  unfold swap
  rw [h1, h2]
  simp [List.set_append]

theorem insertionInner_append {α : Type} (less : α → α → Bool) (x : α) (suf : List α) :
    ∀ rev : List α, insertionInner less rev.length (rev.reverse ++ x :: suf)
      = (insertLeft less x rev).reverse ++ suf := by
  intro rev
  induction rev generalizing suf with
  | nil => simp [insertionInner, insertLeft]
  | cons y ys ih =>
    have h1 : (ys.reverse ++ y :: x :: suf)[ys.length + 1]? = some x := by
      rw [List.getElem?_append_right (by simp)]; simp
    have h2 : (ys.reverse ++ y :: x :: suf)[ys.length]? = some y := by
      rw [List.getElem?_append_right (by simp)]; simp
    have hs := swap_adjacent ys.reverse y x suf
    simp only [List.length_reverse] at hs
    simp only [List.length_cons, List.reverse_cons, List.append_assoc, List.singleton_append,
      insertionInner, h1, h2, insertLeft]
    by_cases hl : less x y = true
    · simp only [hl, if_true, hs, ih, List.reverse_cons, List.append_assoc, List.singleton_append]
    · simp only [hl, if_false, List.reverse_cons, List.append_assoc, List.singleton_append]
      simp

theorem insertionFold_eq {α : Type} (less : α → α → Bool) :
    ∀ (rest rev : List α),
      (List.range' rev.length rest.length).foldl (fun d i => insertionInner less i d)
        (rev.reverse ++ rest) = insertAll less rev rest := by
  intro rest
  induction rest with
  | nil => intro rev; simp [insertAll]
  | cons x rest ih =>
    intro rev
    have hlen : (insertLeft less x rev).length = rev.length + 1 := by
      induction rev with
      | nil => simp [insertLeft]
      | cons y ys ih2 =>
        simp only [insertLeft]
        split <;> simp [ih2]
    simp only [List.length_cons, List.range'_succ, List.foldl_cons, insertionInner_append, insertAll]
    rw [← hlen]
    exact ih _

theorem insertionSort_eq {α : Type} (less : α → α → Bool) (d : List α) :
    insertionSort less d = insertAll less [] d := by
  cases d with
  | nil => simp [insertionSort, insertAll]
  | cons x rest =>
    have h := insertionFold_eq less rest [x]
    simpa [insertionSort, insertAll, insertLeft] using h

theorem insertLeft_perm {α : Type} (less : α → α → Bool) (x : α) :
    ∀ rev : List α, (insertLeft less x rev).Perm (x :: rev) := by
  intro rev
  induction rev with
  | nil => simp [insertLeft]
  | cons y ys ih =>
    simp only [insertLeft]
    split
    · exact (List.Perm.cons y ih).trans (List.Perm.swap x y ys)
    · exact List.Perm.refl _

theorem insertAll_perm {α : Type} (less : α → α → Bool) :
    ∀ rest rev : List α, (insertAll less rev rest).Perm (rev.reverse ++ rest) := by
  intro rest
  induction rest with
  | nil => intro rev; simp [insertAll]
  | cons x rest ih =>
    intro rev
    simp only [insertAll]
    refine (ih _).trans ?_
    have h1 : (insertLeft less x rev).reverse.Perm (rev.reverse ++ [x]) := by
      refine (List.reverse_perm _).trans ((insertLeft_perm less x rev).trans ?_)
      refine List.Perm.trans ?_ (List.perm_append_comm)
      simpa using (List.reverse_perm rev).symm
    simpa using List.Perm.append_right rest h1

theorem insertionSort_perm {α : Type} (less : α → α → Bool) (d : List α) :
    (insertionSort less d).Perm d := by
  rw [insertionSort_eq]
  simpa using insertAll_perm less d []

theorem insertLeft_pairwise {α : Type} (less : α → α → Bool) (R : α → α → Prop)
    (hR : ∀ x y z, R x y → R y z → R x z)
    (h1 : ∀ x y, less x y = true → R x y) (h2 : ∀ x y, less x y = false → R y x) (x : α) :
    ∀ rev : List α, rev.Pairwise (fun a b => R b a) →
      (insertLeft less x rev).Pairwise (fun a b => R b a) := by
  intro rev
  induction rev with
  | nil => intro _; simp [insertLeft]
  | cons y ys ih =>
    intro h
    rw [List.pairwise_cons] at h
    simp only [insertLeft]
    by_cases hl : less x y = true
    · simp only [hl, if_true, List.pairwise_cons]
      refine ⟨?_, ih h.2⟩
      intro z hz
      rcases (List.mem_cons.mp ((insertLeft_perm less x ys).mem_iff.mp hz)) with hz | hz
      · subst hz; exact h1 _ _ hl
      · exact h.1 z hz
    · have hl2 : less x y = false := by simpa using hl
      simp only [hl2, Bool.false_eq_true, if_false, List.pairwise_cons]
      refine ⟨?_, h.1, h.2⟩
      intro z hz
      rcases List.mem_cons.mp hz with hz | hz
      · subst hz; exact h2 _ _ hl2
      · exact hR _ _ _ (h.1 z hz) (h2 _ _ hl2)

theorem insertAll_pairwise {α : Type} (less : α → α → Bool) (R : α → α → Prop)
    (hR : ∀ x y z, R x y → R y z → R x z)
    (h1 : ∀ x y, less x y = true → R x y) (h2 : ∀ x y, less x y = false → R y x) :
    ∀ rest rev : List α, rev.Pairwise (fun a b => R b a) →
      (insertAll less rev rest).Pairwise R := by
  intro rest
  induction rest with
  | nil =>
    intro rev h
    simpa [insertAll, List.pairwise_reverse] using h
  | cons x rest ih =>
    intro rev h
    simp only [insertAll]
    exact ih _ (insertLeft_pairwise less R hR h1 h2 x rev h)

theorem insertionSort_pairwise {α : Type} (less : α → α → Bool) (R : α → α → Prop)
    (hR : ∀ x y z, R x y → R y z → R x z)
    (h1 : ∀ x y, less x y = true → R x y) (h2 : ∀ x y, less x y = false → R y x)
    (d : List α) : (insertionSort less d).Pairwise R := by
  rw [insertionSort_eq]
  exact insertAll_pairwise less R hR h1 h2 d [] List.Pairwise.nil

theorem insertLeft_filter {α : Type} (less : α → α → Bool) (p : α → Bool)
    (hp : ∀ x y, p x = true → p y = true → less x y = false) (x : α) :
    ∀ rev : List α, (insertLeft less x rev).filter p = (x :: rev).filter p := by
  intro rev
  induction rev with
  | nil => simp [insertLeft]
  | cons y ys ih =>
    simp only [insertLeft]
    by_cases hl : less x y = true
    · simp only [hl, if_true]
      by_cases hx : p x = true
      · have hy : p y = false := by
          by_contra hy
          have := hp x y hx (by simpa using hy)
          rw [this] at hl; exact Bool.noConfusion hl
        simp [List.filter_cons, hx, hy, ih]
      · have hx2 : p x = false := by simpa using hx
        simp [List.filter_cons, hx2, ih]
    · simp [hl]

theorem insertAll_filter {α : Type} (less : α → α → Bool) (p : α → Bool)
    (hp : ∀ x y, p x = true → p y = true → less x y = false) :
    ∀ rest rev : List α,
      (insertAll less rev rest).filter p = rev.reverse.filter p ++ rest.filter p := by
  intro rest
  induction rest with
  | nil => intro rev; simp [insertAll]
  | cons x rest ih =>
    intro rev
    simp only [insertAll]
    rw [ih, List.filter_reverse, insertLeft_filter less p hp]
    by_cases hx : p x = true
    · simp [List.filter_cons, hx, List.filter_reverse]
    · simp [List.filter_cons, hx, List.filter_reverse]

theorem insertionSort_filter {α : Type} (less : α → α → Bool) (p : α → Bool)
    (hp : ∀ x y, p x = true → p y = true → less x y = false) (d : List α) :
    (insertionSort less d).filter p = d.filter p := by
  rw [insertionSort_eq]
  simpa using insertAll_filter less p hp d []

/-! ### The comparators of the four sorters -/

theorem After_iff (t u : Time) :
    t.After u = true ↔ (u.sec < t.sec ∨ (t.sec = u.sec ∧ u.nsec < t.nsec)) := by
  simp [Time.After]

theorem After_false_iff (t u : Time) :
    t.After u = false ↔ ¬ (u.sec < t.sec ∨ (t.sec = u.sec ∧ u.nsec < t.nsec)) := by
  rw [← After_iff]; simp

theorem After_irrefl (t : Time) : t.After t = false := by
  rw [After_false_iff]; omega

theorem After_trans (t u v : Time) (h1 : t.After u = true) (h2 : u.After v = true) :
    t.After v = true := by
  rw [After_iff] at *; omega

theorem After_false_trans (t u v : Time) (h1 : t.After u = false) (h2 : u.After v = false) :
    t.After v = false := by
  rw [After_false_iff] at *; omega

theorem insertionSort_sorted {α : Type} (less : α → α → Bool)
    (h1 : ∀ x y z, less x y = true → less y z = true → less x z = true)
    (h2 : ∀ x y z, less x y = false → less y z = false → less x z = false) (d : List α) :
    (insertionSort less d).Pairwise (fun x y => less y x = true → less x y = true) := by
  apply insertionSort_pairwise less (fun x y => less y x = true → less x y = true)
  · intro x y z hxy hyz hzx
    by_contra hxz
    have hxz2 : less x z = false := by simpa using hxz
    by_cases hyx : less y x = true
    · have hxy2 := hxy hyx
      by_cases hzy : less z y = true
      · exact hxz (h1 x y z hxy2 (hyz hzy))
      · have hzy2 : less z y = false := by simpa using hzy
        have := h2 x z y hxz2 hzy2
        rw [hxy2] at this
        exact Bool.noConfusion this
    · have hyx2 : less y x = false := by simpa using hyx
      by_cases hzy : less z y = true
      · have hyz2 := hyz hzy
        have := h2 y x z hyx2 hxz2
        rw [hyz2] at this
        exact Bool.noConfusion this
      · have hzy2 : less z y = false := by simpa using hzy
        have := h2 z y x hzy2 hyx2
        rw [hzx] at this
        exact Bool.noConfusion this
  · intro x y hxy _; exact hxy
  · intro x y hxy hxy2
    rw [hxy] at hxy2
    exact Bool.noConfusion hxy2

theorem insertionSort_spec : SortSpec insertionSort where
  perm := fun less d => insertionSort_perm less d
  sorted := fun less h1 h2 d => insertionSort_sorted less h1 h2 d

theorem severity_sorted (sortSort : (alertData → alertData → Bool) → List alertData → List alertData)
    (hs : SortSpec sortSort) (SeverityLevels : List (String × Int)) (l : List alertData) :
    (sortSort (severitySorter.Less SeverityLevels) l).Pairwise
      (fun x y => mapGet 0 SeverityLevels x.Severity ≤ mapGet 0 SeverityLevels y.Severity) := by
  have h := hs.sorted (severitySorter.Less SeverityLevels)
    (by intro x y z; simp only [severitySorter.Less, decide_eq_true_eq]; omega)
    (by intro x y z; simp only [severitySorter.Less, decide_eq_false_iff_not]; omega) l
  refine h.imp ?_
  intro x y hxy
  simp only [severitySorter.Less, decide_eq_true_eq] at hxy
  omega

theorem starts_sorted (sortSort : (alertData → alertData → Bool) → List alertData → List alertData)
    (hs : SortSpec sortSort) (l : List alertData) :
    (sortSort startAtSorter.Less l).Pairwise (fun x y => x.StartsAt.After y.StartsAt = false) := by
  have h := hs.sorted startAtSorter.Less
    (by intro x y z h1 h2; exact After_trans _ _ _ h2 h1)
    (by intro x y z h1 h2; exact After_false_trans _ _ _ h2 h1) l
  refine h.imp ?_
  intro x y hxy
  simp only [startAtSorter.Less] at hxy
  by_contra hc
  have hc2 : x.StartsAt.After y.StartsAt = true := by simpa using hc
  have h3 := hxy hc2
  rw [After_iff] at hc2 h3
  omega

theorem ends_sorted (sortSort : (alertData → alertData → Bool) → List alertData → List alertData)
    (hs : SortSpec sortSort) (l : List alertData) :
    (sortSort endsAtSorter.Less l).Pairwise (fun x y => x.EndsAt.After y.EndsAt = false) := by
  have h := hs.sorted endsAtSorter.Less
    (by intro x y z h1 h2; exact After_trans _ _ _ h2 h1)
    (by intro x y z h1 h2; exact After_false_trans _ _ _ h2 h1) l
  refine h.imp ?_
  intro x y hxy
  simp only [endsAtSorter.Less] at hxy
  by_contra hc
  have hc2 : x.EndsAt.After y.EndsAt = true := by simpa using hc
  have h3 := hxy hc2
  rw [After_iff] at hc2 h3
  omega

theorem duration_sorted
    (sortSort : (alertData → alertData → Bool) → List alertData → List alertData)
    (hs : SortSpec sortSort) (l : List alertData) :
    (sortSort durationSorter.Less l).Pairwise
      (fun x y => x.EndsAt.Sub x.StartsAt ≤ y.EndsAt.Sub y.StartsAt) := by
  have h := hs.sorted durationSorter.Less
    (by intro x y z; simp only [durationSorter.Less, decide_eq_true_eq]; omega)
    (by intro x y z; simp only [durationSorter.Less, decide_eq_false_iff_not]; omega) l
  refine h.imp ?_
  intro x y hxy
  simp only [durationSorter.Less, decide_eq_true_eq] at hxy
  omega

theorem sorted_three (key : alertData → Int) (l : List alertData) (a b c : alertData)
    (hp : l.Perm [a, b, c]) (hs : l.Pairwise (fun x y => key x ≤ key y))
    (hbc : key b < key c) (hca : key c < key a) : l = [b, c, a] := by
  have hne : l.Pairwise (fun x y => key x ≠ key y) := by
    have h0 : [a, b, c].Pairwise (fun x y => key x ≠ key y) := by
      simp only [List.pairwise_cons, List.mem_cons, List.mem_singleton, List.not_mem_nil,
        or_false, forall_eq_or_imp, forall_eq, false_implies, implies_true, and_true,
        List.Pairwise.nil]
      omega
    exact hp.symm.pairwise h0 (fun h => h.symm)
  have hlt : l.Pairwise (fun x y => key x < key y) := by
    refine (hs.and hne).imp ?_
    intro x y h
    omega
  have htarget : [b, c, a].Pairwise (fun x y => key x < key y) := by
    simp only [List.pairwise_cons, List.mem_cons, List.mem_singleton, List.not_mem_nil,
      or_false, forall_eq_or_imp, forall_eq, false_implies, implies_true, and_true,
      List.Pairwise.nil]
    omega
  have hperm : l.Perm [b, c, a] := hp.trans (by
    exact (List.perm_cons_append_cons a (List.Perm.refl [b, c]) : ([a, b, c]).Perm ([b, c] ++ a :: [])))
  haveI : IsAntisymm alertData (fun x y => key x < key y) :=
    ⟨fun x y h1 h2 => absurd h1 (by omega)⟩
  exact List.eq_of_perm_of_sorted hperm hlt htarget

/-! ### sortAlert -/

theorem mapGet_absent (m : List (String × Int)) (key : String)
    (h : key ∉ m.map Prod.fst) : mapGet 0 m key = 0 := by
  induction m with
  | nil => rfl
  | cons kv rest ih =>
    obtain ⟨k, v⟩ := kv
    simp only [List.map_cons, List.mem_cons, not_or] at h
    have hk : ¬ (k = key) := fun e => h.1 e.symm
    simp only [mapGet, hk, if_false]
    exact ih h.2

theorem sortAlert_perm (sortSort : (alertData → alertData → Bool) → List alertData → List alertData)
    (hs : SortSpec sortSort) (SeverityLevels : List (String × Int)) (sortLabel : String)
    (l : List alertData) : (sortAlert sortSort SeverityLevels sortLabel l).Perm l := by
  unfold sortAlert
  split
  · exact hs.perm _ _
  · split
    · exact hs.perm _ _
    · split
      · exact hs.perm _ _
      · split
        · exact hs.perm _ _
        · exact List.Perm.refl _

/-- C2 (as stated, refuted): sorted by duration, two open-ended alerts come out
with the larger exact difference `endsAt - startsAt` first; `Time.Sub` gives
both the largest duration.  A slice of two elements is sorted by
`insertionSort`. -/
theorem sortAlert_duration_not_ascending :
    sortAlert insertionSort rankTable "duration" [openLate, openEarly] = [openEarly, openLate] ∧
      elapsed openLate < elapsed openEarly ∧
      openEarly.EndsAt.Sub openEarly.StartsAt = maxDuration ∧
      openLate.EndsAt.Sub openLate.StartsAt = maxDuration ∧
      ¬ (sortAlert insertionSort rankTable "duration" [openLate, openEarly]).Pairwise
        (fun x y => elapsed x ≤ elapsed y) := by
  have h : sortAlert insertionSort rankTable "duration" [openLate, openEarly]
      = [openEarly, openLate] := by decide
  refine ⟨h, by decide, by decide, by decide, ?_⟩
  rw [h]
  decide

/-- C2 (amended): for each of the four sort keys, whatever the case of the
letters of the label, `sortAlert` leaves a permutation of the working list in
ascending order of the key: the severity rank (absent severities rank 0),
startsAt, endsAt, or, for duration, the Duration `endsAt.Sub(startsAt)`, which
is the difference `endsAt - startsAt` held between the smallest and the largest
Duration.  With the rank table {info:0, warning:1, high:3, urgent:5},
severities [urgent, info, high] come out as [info, high, urgent]. -/
theorem sortAlert_sorted
    (sortSort : (alertData → alertData → Bool) → List alertData → List alertData)
    (hs : SortSpec sortSort) (SeverityLevels : List (String × Int)) (sortLabel : String)
    (l : List alertData) :
    (sortAlert sortSort SeverityLevels sortLabel l).Perm l ∧
    (ToLower sortLabel = "severity" →
      (sortAlert sortSort SeverityLevels sortLabel l).Pairwise
        (fun x y => mapGet 0 SeverityLevels x.Severity ≤ mapGet 0 SeverityLevels y.Severity)) ∧
    (ToLower sortLabel = "starts" →
      (sortAlert sortSort SeverityLevels sortLabel l).Pairwise
        (fun x y => x.StartsAt.After y.StartsAt = false)) ∧
    (ToLower sortLabel = "ends" →
      (sortAlert sortSort SeverityLevels sortLabel l).Pairwise
        (fun x y => x.EndsAt.After y.EndsAt = false)) ∧
    (ToLower sortLabel = "duration" →
      (sortAlert sortSort SeverityLevels sortLabel l).Pairwise
        (fun x y => x.EndsAt.Sub x.StartsAt ≤ y.EndsAt.Sub y.StartsAt)) ∧
    (∀ x : alertData, x.EndsAt.Sub x.StartsAt =
      if elapsed x < minDuration then minDuration
      else if elapsed x > maxDuration then maxDuration else elapsed x) ∧
    (∀ sev : String, sev ∉ SeverityLevels.map Prod.fst → mapGet 0 SeverityLevels sev = 0) ∧
    (∀ a b c : alertData, a.Severity = "urgent" → b.Severity = "info" → c.Severity = "high" →
      ToLower sortLabel = "severity" →
      sortAlert sortSort rankTable sortLabel [a, b, c] = [b, c, a]) := by
  refine ⟨sortAlert_perm sortSort hs _ _ _, ?_, ?_, ?_, ?_, fun _ => rfl,
    mapGet_absent SeverityLevels, ?_⟩
  · intro h
    simp only [sortAlert, h, if_true]
    exact severity_sorted sortSort hs _ _
  · intro h
    have h1 : ¬ ("starts" = "severity") := by decide
    simp only [sortAlert, h, h1, if_true, if_false]
    exact starts_sorted sortSort hs _
  · intro h
    have h1 : ¬ ("ends" = "severity") := by decide
    have h2 : ¬ ("ends" = "starts") := by decide
    simp only [sortAlert, h, h1, h2, if_true, if_false]
    exact ends_sorted sortSort hs _
  · intro h
    have h1 : ¬ ("duration" = "severity") := by decide
    have h2 : ¬ ("duration" = "starts") := by decide
    have h3 : ¬ ("duration" = "ends") := by decide
    simp only [sortAlert, h, h1, h2, h3, if_true, if_false]
    exact duration_sorted sortSort hs _
  · intro a b c ha hb hc h
    simp only [sortAlert, h, if_true]
    refine sorted_three (fun x => mapGet 0 rankTable x.Severity) _ a b c (hs.perm _ _)
      (severity_sorted sortSort hs rankTable _) ?_ ?_
    · simp only [hb, hc]; decide
    · simp only [ha, hc]; decide

/-- Witness of C2 (amended) with Go's insertion sort: eight alerts sorted by
duration, and three sorted by severity under the label SEVERİTY, which
`strings.ToLower` turns into severity. -/
theorem sortAlert_sorted_witness :
    SortSpec insertionSort ∧
      (sortAlert insertionSort rankTable "Duration" eightAlerts).Pairwise
        (fun x y => x.EndsAt.Sub x.StartsAt ≤ y.EndsAt.Sub y.StartsAt) ∧
      (sortAlert insertionSort rankTable "Duration" eightAlerts).map (fun x => x.Name)
        = ["g", "f", "c", "e", "h", "b", "d", "a"] ∧
      ToLower "SEVERİTY" = "severity" ∧
      (sortAlert insertionSort rankTable "SEVERİTY" threeAlerts).map (fun x => x.Severity)
        = ["info", "high", "urgent"] :=
  ⟨insertionSort_spec,
    (sortAlert_sorted insertionSort insertionSort_spec rankTable "Duration"
      eightAlerts).2.2.2.2.1 (by decide),
    by decide, by decide, by decide⟩

/-- C3: the stability the claim asks for fails on the duration key.  Two alerts
of one hour each, sorted by duration, change places, because
`durationSorter.Less` compares with `<=` and so holds both ways between them
(and of an alert with itself); the Less of the three other sorters is strict,
and sorted by severity or by starts the same two alerts keep their places.  A
slice of two elements is sorted by `insertionSort`. -/
theorem sortAlert_duration_unstable :
    sortAlert insertionSort rankTable "duration" [hourFirst, hourSecond] = [hourSecond, hourFirst] ∧
      hourFirst.EndsAt.Sub hourFirst.StartsAt = hourSecond.EndsAt.Sub hourSecond.StartsAt ∧
      hourFirst ≠ hourSecond ∧
      durationSorter.Less hourSecond hourFirst = true ∧
      durationSorter.Less hourFirst hourSecond = true ∧
      (∀ x : alertData, durationSorter.Less x x = true) ∧
      (∀ (SeverityLevels : List (String × Int)) (x : alertData),
        severitySorter.Less SeverityLevels x x = false ∧ startAtSorter.Less x x = false ∧
          endsAtSorter.Less x x = false) ∧
      sortAlert insertionSort rankTable "severity" [hourFirst, hourSecond]
        = [hourFirst, hourSecond] ∧
      mapGet 0 rankTable hourFirst.Severity = mapGet 0 rankTable hourSecond.Severity := by
  refine ⟨by decide, by decide, by decide, by decide, by decide, ?_, ?_, by decide, by decide⟩
  · intro x
    simp [durationSorter.Less]
  · intro SeverityLevels x
    refine ⟨by simp [severitySorter.Less], After_irrefl _, After_irrefl _⟩

/-! ### Rendering: jsonPrint and tabulate -/

theorem jsonPrintLoop_spec (now : Nat → Time) (filteredAlerts : List (String × Int)) :
    ∀ (l : List alertData) (k : Nat) (temp : alertDataJSON) (acc : List alertDataJSON),
      ∃ out, jsonPrintLoop now filteredAlerts l k temp acc = acc ++ out ∧
        List.Forall₂ (fun each r => ∃ j, r = jsonRecord now j each)
          (rendered filteredAlerts l) out := by
  intro l
  induction l with
  | nil => intro k temp acc; exact ⟨[], by simp [jsonPrintLoop], by simp [rendered]⟩
  | cons each rest ih =>
    intro k temp acc
    by_cases hf : mapGet 0 filteredAlerts each.Name = 1
    · by_cases he : each.EndsAt = sentinel
      · obtain ⟨out, h1, h2⟩ := ih (k + 1)
          ⟨each.Name, each.Service, each.Tag, each.Service, timeDiff (now k) each.StartsAt 0,
            "Undefined", "Undefined"⟩
          (acc ++ [⟨each.Name, each.Service, each.Tag, each.Service,
            timeDiff (now k) each.StartsAt 0, "Undefined", "Undefined"⟩])
        refine ⟨jsonRecord now k each :: out, ?_, ?_⟩
        · simp only [jsonPrintLoop, hf, he, if_true]
          rw [h1]; simp [jsonRecord, he]
        · simp only [rendered, List.filter_cons, hf, decide_True, if_true]
          exact List.Forall₂.cons ⟨k, rfl⟩ h2
      · obtain ⟨out, h1, h2⟩ := ih (k + 2)
          ⟨each.Name, each.Service, each.Tag, each.Service, timeDiff (now k) each.StartsAt 0,
            timeDiff (now (k + 1)) each.EndsAt 0, timeDiff each.StartsAt each.EndsAt 1⟩
          (acc ++ [⟨each.Name, each.Service, each.Tag, each.Service,
            timeDiff (now k) each.StartsAt 0,
            timeDiff (now (k + 1)) each.EndsAt 0, timeDiff each.StartsAt each.EndsAt 1⟩])
        refine ⟨jsonRecord now k each :: out, ?_, ?_⟩
        · simp only [jsonPrintLoop, hf, he, if_true, if_false]
          rw [h1]; simp [jsonRecord, he]
        · simp only [rendered, List.filter_cons, hf, decide_True, if_true]
          exact List.Forall₂.cons ⟨k, rfl⟩ h2
    · obtain ⟨out, h1, h2⟩ := ih k temp acc
      refine ⟨out, ?_, ?_⟩
      · simp only [jsonPrintLoop, hf, if_false]
        exact h1
      · simpa [rendered, List.filter_cons, hf] using h2

theorem jsonPrint_spec (now : Nat → Time) (filteredAlerts : List (String × Int))
    (l : List alertData) :
    List.Forall₂ (fun each r => ∃ j, r = jsonRecord now j each)
      (rendered filteredAlerts l) (jsonPrint now filteredAlerts l) := by
  obtain ⟨out, h1, h2⟩ := jsonPrintLoop_spec now filteredAlerts l 0 ⟨"", "", "", "", "", "", ""⟩ []
  unfold jsonPrint
  rw [h1]
  simpa using h2

theorem tabulateLoop_spec (now : Nat → Time) (filteredAlerts : List (String × Int)) :
    ∀ (l : List alertData) (k : Nat),
      List.Forall₂ (fun each row => ∃ j, row = tableRow now j each)
        (rendered filteredAlerts l) (tabulateLoop now filteredAlerts l k) := by
  intro l
  induction l with
  | nil => intro k; simp [rendered, tabulateLoop]
  | cons each rest ih =>
    intro k
    by_cases hf : mapGet 0 filteredAlerts each.Name = 1
    · by_cases he : each.EndsAt = sentinel
      · simp only [tabulateLoop, hf, he, if_true, rendered, List.filter_cons, decide_True]
        refine List.Forall₂.cons ⟨k, ?_⟩ (ih (k + 1))
        simp [tableRow, he]
      · simp only [tabulateLoop, hf, he, if_true, if_false, rendered, List.filter_cons,
          decide_True]
        refine List.Forall₂.cons ⟨k, ?_⟩ (ih (k + 2))
        simp [tableRow, he]
    · simpa [tabulateLoop, hf, rendered, List.filter_cons] using ih k

/-- C4: the record `jsonPrint` builds for a rendered alert carries its name,
service and tag, but its Severity field holds the alert's service: for an alert
of service GGUS and severity high the JSON severity is GGUS. -/
theorem jsonPrint_severity_is_service :
    (∀ (now : Nat → Time) (filteredAlerts : List (String × Int)) (l : List alertData),
      List.Forall₂ (fun each r => r.Name = each.Name ∧ r.Service = each.Service ∧
          r.Tag = each.Tag ∧ r.Severity = each.Service)
        (rendered filteredAlerts l) (jsonPrint now filteredAlerts l)) ∧
    (jsonPrint (fun _ => sentinel) [("first", 1)] [hourFirst]).map (fun r => r.Severity)
      = ["GGUS"] ∧
    hourFirst.Severity = "high" := by
  refine ⟨?_, by decide, by decide⟩
  intro now filteredAlerts l
  refine (jsonPrint_spec now filteredAlerts l).imp ?_
  rintro each r ⟨j, rfl⟩
  simp [jsonRecord]

/-- C5: for every rendered record and whatever `time.Now()` returns, the end
and duration fields are "Undefined" when endsAt is the sentinel, the value
`time.Unix(maxtstmp, 0).UTC()` (Unix second 32516091806 in the location
`time.UTC`), and `timeDiff(now, endsAt, 0)`, `timeDiff(startsAt, endsAt, 1)`
otherwise, in the JSON record and in the table row alike.  The test is Go's
`==`, which compares the location as a pointer: the same instant held in a zone
made by `time.FixedZone("UTC", 0)` is not the sentinel and is rendered as a
delta. -/
theorem undefined_rendering (now : Nat → Time) (filteredAlerts : List (String × Int))
    (Columns : List String) (l : List alertData) :
    sentinel = ⟨32516091806, 0, UTC⟩ ∧
    List.Forall₂ (fun each r =>
        (each.EndsAt = sentinel → r.Ends = "Undefined" ∧ r.Duration = "Undefined") ∧
        (each.EndsAt ≠ sentinel → ∃ k, r.Ends = timeDiff (now k) each.EndsAt 0 ∧
          r.Duration = timeDiff each.StartsAt each.EndsAt 1))
      (rendered filteredAlerts l) (jsonPrint now filteredAlerts l) ∧
    List.Forall₂ (fun each row => ∃ j,
        (each.EndsAt = sentinel →
          row = " " ++ each.Name ++ "\t\t" ++ each.Service ++ "\t\t" ++ each.Tag ++ "\t\t" ++
            each.Severity ++ "\t\t" ++ timeDiff (now j) each.StartsAt 0 ++
            ("\t\t" ++ "Undefined") ++ ("\t\t" ++ "Undefined" ++ "\n")) ∧
        (each.EndsAt ≠ sentinel → ∃ k,
          row = " " ++ each.Name ++ "\t\t" ++ each.Service ++ "\t\t" ++ each.Tag ++ "\t\t" ++
            each.Severity ++ "\t\t" ++ timeDiff (now j) each.StartsAt 0 ++
            ("\t\t" ++ timeDiff (now k) each.EndsAt 0) ++
            ("\t\t" ++ timeDiff each.StartsAt each.EndsAt 1 ++ "\n")))
      (rendered filteredAlerts l) (tabulate Columns now filteredAlerts l).2 ∧
    (openElsewhere.EndsAt.sec = sentinel.sec ∧ openElsewhere.EndsAt.nsec = sentinel.nsec ∧
      openElsewhere.EndsAt.loc.name = sentinel.loc.name ∧
      openElsewhere.EndsAt.loc.offset = sentinel.loc.offset ∧
      openElsewhere.EndsAt ≠ sentinel ∧
      (jsonPrint (fun _ => exampleFrom) [("open", 1)] [openElsewhere]).map
          (fun r => (r.Ends, r.Duration))
        = [("IN 979Y 4M 23D 15h 43m 26s ", "979Y 4M 23D 15h 43m 26s ")] ∧
      (tabulate [] (fun _ => exampleFrom) [("open", 1)] [openElsewhere]).2
        = [" open\t\tGGUS\t\tcms\t\thigh\t\tIN \t\tIN 979Y 4M 23D 15h 43m 26s " ++
            "\t\t979Y 4M 23D 15h 43m 26s \n"]) := by
  refine ⟨rfl, ?_, ?_, by decide, by decide, by decide, by decide, by decide, by decide, by decide⟩
  · refine (jsonPrint_spec now filteredAlerts l).imp ?_
    rintro each r ⟨j, rfl⟩
    refine ⟨fun he => by simp [jsonRecord, he], fun he => ⟨j + 1, by simp [jsonRecord, he]⟩⟩
  · refine (tabulateLoop_spec now filteredAlerts l 0).imp ?_
    rintro each row ⟨j, rfl⟩
    refine ⟨j, fun he => by simp [tableRow, he], fun he => ⟨j + 1, by simp [tableRow, he]⟩⟩

/-! ### Time difference -/

theorem diffFields_components (a b : Time) :
    ∃ y mo d h mi s : Int, diffFields a b = [y, mo, d, h, mi, s] :=
  ⟨_, _, _, _, _, _, rfl⟩

theorem diff_components (a b : Time) :
    ∃ y mo d h mi s : Int, diff a b = [y, mo, d, h, mi, s] := by
  unfold diff
  dsimp only
  split <;> split <;> exact diffFields_components _ _

theorem timeDiffHelper_six (y mo d h mi s : Int) :
    timeDiffHelper [y, mo, d, h, mi, s] = renderUnits [y, mo, d, h, mi, s] := by
  simp only [timeDiffHelper, timeDiffHelperFrom, renderUnits, List.zip_cons_cons, List.zip_nil_left,
    List.filter_cons, List.filter_nil, gt_iff_lt]
  by_cases h1 : 0 < y <;> by_cases h2 : 0 < mo <;> by_cases h3 : 0 < d <;> by_cases h4 : 0 < h <;>
    by_cases h5 : 0 < mi <;> by_cases h6 : 0 < s <;>
    simp [h1, h2, h3, h4, h5, h6, String.join, String.append_assoc]

theorem timeDiffHelper_diff (a b : Time) : timeDiffHelper (diff a b) = renderUnits (diff a b) := by
  obtain ⟨y, mo, d, h, mi, s, hd⟩ := diff_components a b
  rw [hd]
  exact timeDiffHelper_six _ _ _ _ _ _

/-- C6: when `a` is not after `b`, `timeDiff(a, b, 1)` is the concatenation, in
the order Y, M, D, h, m, s, of the segments "<value><letter> " of exactly the
strictly positive components of `diff(b, a)`; from 2021-01-01T00:00:00Z to
2021-03-02T01:00:05Z it is "2M 1D 1h 5s ". -/
theorem timeDiff_plain_duration (a b : Time) (hab : a.After b = false) :
    timeDiff a b 1 = renderUnits (diff b a) ∧
    exampleFrom = timeDate 2021 1 1 0 0 0 UTC ∧ exampleTo = timeDate 2021 3 2 1 0 5 UTC ∧
    timeDiff exampleFrom exampleTo 1 = "2M 1D 1h 5s " := by
  refine ⟨?_, by decide, by decide, by decide⟩
  simp only [timeDiff, hab, if_true]
  simpa using timeDiffHelper_diff b a

/-- Witness of C6 at the two instants of the example. -/
theorem timeDiff_plain_duration_witness :
    exampleFrom.After exampleTo = false ∧
      timeDiff exampleFrom exampleTo 1 = renderUnits (diff exampleTo exampleFrom) :=
  ⟨by decide, (timeDiff_plain_duration exampleFrom exampleTo (by decide)).1⟩

/-- C7 (as stated, refuted): for 2021-02-28T23:30:00Z and
2021-04-01T00:00:00+01:00 the plain duration is "30D 23h 30m ", while
`timeDiffHelper(diff(t1, t2))` is "1M 2D 23h 30m ": the unit string depends on
which instant is passed first. -/
theorem timeDiff_depends_on_order :
    lateFebruary = timeDate 2021 2 28 23 30 0 UTC ∧
      aprilFirst = timeDate 2021 4 1 0 0 0 ⟨1, "", 3600⟩ ∧
      lateFebruary.After aprilFirst = false ∧
      timeDiff lateFebruary aprilFirst 1 = "30D 23h 30m " ∧
      timeDiffHelper (diff lateFebruary aprilFirst) = "1M 2D 23h 30m " ∧
      timeDiffHelper (diff aprilFirst lateFebruary) = "30D 23h 30m " := by
  decide

theorem diff_comm_of_loc (t1 t2 : Time) (h : t1.loc = t2.loc) : diff t1 t2 = diff t2 t1 := by
  have h2 : t2.loc = t1.loc := h.symm
  by_cases h12 : t1.After t2 = true
  · have h21 : t2.After t1 = false := by
      rw [After_iff] at h12; rw [After_false_iff]; omega
    simp [diff, h, h12, h21]
  · have h12f : t1.After t2 = false := by simpa using h12
    by_cases h21 : t2.After t1 = true
    · simp [diff, h, h12f, h21]
    · have h21f : t2.After t1 = false := by simpa using h21
      have heq : t1 = t2 := by
        rw [After_false_iff] at h12f h21f
        cases t1; cases t2
        simp only [Time.mk.injEq] at *
        refine ⟨by omega, by omega, h⟩
      subst heq
      rfl

/-- C7 (amended): `timeDiff(t1, t2, flag)` is `timeDiffHelper(diff(t1, t2))`
followed by "AGO" when `t1` is after `t2`; otherwise it is
`timeDiffHelper(diff(t2, t1))`, unmodified when the flag is 1 and preceded by
"IN " when it is not.  The unit strings of the two orders agree when the two
instants have the same location. -/
theorem timeDiff_cases (t1 t2 : Time) (duration : Int) :
    (t1.After t2 = true → timeDiff t1 t2 duration = timeDiffHelper (diff t1 t2) ++ "AGO") ∧
    (t1.After t2 = false → duration = 1 →
      timeDiff t1 t2 duration = timeDiffHelper (diff t2 t1)) ∧
    (t1.After t2 = false → duration ≠ 1 →
      timeDiff t1 t2 duration = "IN " ++ timeDiffHelper (diff t2 t1)) ∧
    (t1.loc = t2.loc → timeDiffHelper (diff t1 t2) = timeDiffHelper (diff t2 t1)) := by
  refine ⟨?_, ?_, ?_, ?_⟩
  · intro h; simp [timeDiff, h]
  · intro h hd; simp [timeDiff, h, hd]
  · intro h hd; simp [timeDiff, h, hd]
  · intro h; rw [diff_comm_of_loc t1 t2 h]

theorem diff_self (t : Time) : diff t t = [0, 0, 0, 0, 0, 0] := by
  have h : diffFields t t = [0, 0, 0, 0, 0, 0] := by
    unfold diffFields
    generalize t.Date = D
    generalize t.Clock = C
    obtain ⟨y, m, d⟩ := D
    obtain ⟨h, mi, s⟩ := C
    simp
  simp [diff, After_irrefl, h]

/-- C8 (as stated, refuted): with flag 0 the delta between an instant and
itself renders as "IN ", not as the empty string. -/
theorem timeDiff_self_in : timeDiff sentinel sentinel 0 = "IN " ∧ timeDiff sentinel sentinel 0 ≠ "" := by
  decide

/-- C8 (amended): the delta between an instant and itself renders as the
empty string when the duration flag is 1 and as "IN " for every other flag. -/
theorem timeDiff_self (t : Time) (duration : Int) :
    (duration = 1 → timeDiff t t duration = "") ∧
    (duration ≠ 1 → timeDiff t t duration = "IN ") := by
  have hh : timeDiffHelper [0, 0, 0, 0, 0, 0] = "" := by decide
  refine ⟨?_, ?_⟩
  · intro hd; simp [timeDiff, After_irrefl, hd, diff_self, hh]
  · intro hd; simp [timeDiff, After_irrefl, hd, diff_self, hh]

/-! ### Normalisation: mergeData -/

theorem labelString_cons_self (k s : String) (rest : List (String × Value)) :
    labelString ((k, Value.str s) :: rest) k = s := by
  simp [labelString, mapGet]

theorem keys_ne :
    "alertname" ≠ "severity" ∧ "alertname" ≠ "service" ∧ "alertname" ≠ "tag" ∧
    "severity" ≠ "alertname" ∧ "severity" ≠ "service" ∧ "severity" ≠ "tag" ∧
    "service" ≠ "alertname" ∧ "service" ≠ "severity" ∧ "service" ≠ "tag" ∧
    "tag" ≠ "alertname" ∧ "tag" ≠ "severity" ∧ "tag" ≠ "service" := by decide

theorem labelString_cons_ne (k key : String) (v : Value) (rest : List (String × Value))
    (h : k ≠ key) : labelString ((k, v) :: rest) key = labelString rest key := by
  simp [labelString, mapGet, h]

theorem labelString_absent (labels : List (String × Value)) (key : String)
    (h : key ∉ labels.map Prod.fst) : labelString labels key = "" := by
  induction labels with
  | nil => simp [labelString, mapGet]
  | cons kv rest ih =>
    obtain ⟨k, v⟩ := kv
    simp only [List.map_cons, List.mem_cons, not_or] at h
    rw [labelString_cons_ne _ _ _ _ (fun hk => h.1 hk.symm)]
    exact ih h.2

theorem mergeLabels_spec (each : amJSON) :
    ∀ (labels : List (String × Value)) (alertDetails : List (String × amJSON)) (temp : alertData),
      (labels.map Prod.fst).Nodup →
      (∀ kv ∈ labels, recognised kv.1 = true → ∃ s, kv.2 = Value.str s) →
      ∃ details, mergeLabels each labels alertDetails temp = some (details,
        ⟨if "alertname" ∈ labels.map Prod.fst then labelString labels "alertname" else temp.Name,
         if "service" ∈ labels.map Prod.fst then labelString labels "service" else temp.Service,
         if "tag" ∈ labels.map Prod.fst then labelString labels "tag" else temp.Tag,
         if "severity" ∈ labels.map Prod.fst then labelString labels "severity" else temp.Severity,
         temp.StartsAt, temp.EndsAt⟩) := by
  intro labels
  induction labels with
  | nil => intro d temp _ _; exact ⟨d, by simp [mergeLabels]⟩
  | cons kv rest ih =>
    intro d temp hnd hstr
    obtain ⟨k, v⟩ := kv
    simp only [List.map_cons, List.nodup_cons] at hnd
    have hrest : ∀ kv ∈ rest, recognised kv.1 = true → ∃ s, kv.2 = Value.str s :=
      fun kv hkv => hstr kv (List.mem_cons_of_mem _ hkv)
    have hhead := hstr (k, v) (List.mem_cons_self _ _)
    by_cases h1 : k = "alertname"
    · obtain ⟨s, hs⟩ := hhead (by simp [recognised, h1])
      simp only at hs
      subst hs; subst h1
      obtain ⟨d2, hd2⟩ := ih (mapSet d s each) { temp with Name := s } hnd.2 hrest
      refine ⟨d2, ?_⟩
      simp only [mergeLabels, if_true, if_false, hd2]
      obtain ⟨n1, n2, n3, n4, n5, n6, n7, n8, n9, n10, n11, n12⟩ := keys_ne
      simp only [List.map_cons, List.mem_cons, true_or, if_true, labelString_cons_self,
        labelString_cons_ne _ _ _ _ n1, labelString_cons_ne _ _ _ _ n2,
        labelString_cons_ne _ _ _ _ n3, labelString_cons_ne _ _ _ _ n4,
        labelString_cons_ne _ _ _ _ n5, labelString_cons_ne _ _ _ _ n6,
        labelString_cons_ne _ _ _ _ n7, labelString_cons_ne _ _ _ _ n8,
        labelString_cons_ne _ _ _ _ n9, labelString_cons_ne _ _ _ _ n10,
        labelString_cons_ne _ _ _ _ n11, labelString_cons_ne _ _ _ _ n12,
        n1, n2, n3, n4, n5, n6, n7, n8, n9, n10, n11, n12, false_or, hnd.1, if_false]
    · by_cases h2 : k = "severity"
      · obtain ⟨s, hs⟩ := hhead (by simp [recognised, h2])
        simp only at hs
        subst hs; subst h2
        obtain ⟨d2, hd2⟩ := ih d { temp with Severity := s } hnd.2 hrest
        refine ⟨d2, ?_⟩
        simp only [mergeLabels, h1, if_true, if_false, hd2]
        obtain ⟨n1, n2, n3, n4, n5, n6, n7, n8, n9, n10, n11, n12⟩ := keys_ne
        simp only [List.map_cons, List.mem_cons, true_or, if_true, labelString_cons_self,
          labelString_cons_ne _ _ _ _ n1, labelString_cons_ne _ _ _ _ n2,
          labelString_cons_ne _ _ _ _ n3, labelString_cons_ne _ _ _ _ n4,
          labelString_cons_ne _ _ _ _ n5, labelString_cons_ne _ _ _ _ n6,
          labelString_cons_ne _ _ _ _ n7, labelString_cons_ne _ _ _ _ n8,
          labelString_cons_ne _ _ _ _ n9, labelString_cons_ne _ _ _ _ n10,
          labelString_cons_ne _ _ _ _ n11, labelString_cons_ne _ _ _ _ n12,
          n1, n2, n3, n4, n5, n6, n7, n8, n9, n10, n11, n12, false_or, hnd.1, if_false]
      · by_cases h3 : k = "service"
        · obtain ⟨s, hs⟩ := hhead (by simp [recognised, h3])
          simp only at hs
          subst hs; subst h3
          obtain ⟨d2, hd2⟩ := ih d { temp with Service := s } hnd.2 hrest
          refine ⟨d2, ?_⟩
          simp only [mergeLabels, h1, h2, if_true, if_false, hd2]
          obtain ⟨n1, n2, n3, n4, n5, n6, n7, n8, n9, n10, n11, n12⟩ := keys_ne
          simp only [List.map_cons, List.mem_cons, true_or, if_true, labelString_cons_self,
            labelString_cons_ne _ _ _ _ n1, labelString_cons_ne _ _ _ _ n2,
            labelString_cons_ne _ _ _ _ n3, labelString_cons_ne _ _ _ _ n4,
            labelString_cons_ne _ _ _ _ n5, labelString_cons_ne _ _ _ _ n6,
            labelString_cons_ne _ _ _ _ n7, labelString_cons_ne _ _ _ _ n8,
            labelString_cons_ne _ _ _ _ n9, labelString_cons_ne _ _ _ _ n10,
            labelString_cons_ne _ _ _ _ n11, labelString_cons_ne _ _ _ _ n12,
            n1, n2, n3, n4, n5, n6, n7, n8, n9, n10, n11, n12, false_or, hnd.1, if_false]
        · by_cases h4 : k = "tag"
          · obtain ⟨s, hs⟩ := hhead (by simp [recognised, h4])
            simp only at hs
            subst hs; subst h4
            obtain ⟨d2, hd2⟩ := ih d { temp with Tag := s } hnd.2 hrest
            refine ⟨d2, ?_⟩
            simp only [mergeLabels, h1, h2, h3, if_true, if_false, hd2]
            obtain ⟨n1, n2, n3, n4, n5, n6, n7, n8, n9, n10, n11, n12⟩ := keys_ne
            simp only [List.map_cons, List.mem_cons, true_or, if_true, labelString_cons_self,
              labelString_cons_ne _ _ _ _ n1, labelString_cons_ne _ _ _ _ n2,
              labelString_cons_ne _ _ _ _ n3, labelString_cons_ne _ _ _ _ n4,
              labelString_cons_ne _ _ _ _ n5, labelString_cons_ne _ _ _ _ n6,
              labelString_cons_ne _ _ _ _ n7, labelString_cons_ne _ _ _ _ n8,
              labelString_cons_ne _ _ _ _ n9, labelString_cons_ne _ _ _ _ n10,
              labelString_cons_ne _ _ _ _ n11, labelString_cons_ne _ _ _ _ n12,
              n1, n2, n3, n4, n5, n6, n7, n8, n9, n10, n11, n12, false_or, hnd.1, if_false]
          · obtain ⟨d2, hd2⟩ := ih d temp hnd.2 hrest
            refine ⟨d2, ?_⟩
            simp only [mergeLabels, h1, h2, h3, h4, if_false, hd2]
            have e1 : ¬ ("alertname" = k) := fun h => h1 h.symm
            have e2 : ¬ ("severity" = k) := fun h => h2 h.symm
            have e3 : ¬ ("service" = k) := fun h => h3 h.symm
            have e4 : ¬ ("tag" = k) := fun h => h4 h.symm
            simp only [List.map_cons, List.mem_cons, e1, e2, e3, e4, false_or,
              labelString_cons_ne _ _ _ _ h1, labelString_cons_ne _ _ _ _ h2,
              labelString_cons_ne _ _ _ _ h3, labelString_cons_ne _ _ _ _ h4]

theorem mergeLabels_normalized (each : amJSON) (alertDetails : List (String × amJSON))
    (hnd : (each.Labels.map Prod.fst).Nodup)
    (hstr : ∀ kv ∈ each.Labels, recognised kv.1 = true → ∃ s, kv.2 = Value.str s) :
    ∃ details, mergeLabels each each.Labels alertDetails ⟨"", "", "", "", zeroTime, zeroTime⟩
      = some (details, { normalized each with StartsAt := zeroTime, EndsAt := zeroTime }) := by
  obtain ⟨d2, hd2⟩ := mergeLabels_spec each each.Labels alertDetails
    ⟨"", "", "", "", zeroTime, zeroTime⟩ hnd hstr
  refine ⟨d2, ?_⟩
  rw [hd2]
  have key : ∀ k, (if k ∈ each.Labels.map Prod.fst then labelString each.Labels k else "")
      = labelString each.Labels k := by
    intro k
    split
    · rfl
    · rename_i h; exact (labelString_absent _ _ h).symm
  simp only [key, normalized]

theorem mergeLoop_spec :
    ∀ (data : List amJSON) (alertDetails : List (String × amJSON)) (allAlertData : List alertData),
      (∀ each ∈ data, (each.Labels.map Prod.fst).Nodup) →
      (∀ each ∈ data, ∀ kv ∈ each.Labels, recognised kv.1 = true → ∃ s, kv.2 = Value.str s) →
      ∃ details, mergeLoop data alertDetails allAlertData
        = some (details, allAlertData ++ data.map normalized) := by
  intro data
  induction data with
  | nil => intro d acc _ _; exact ⟨d, by simp [mergeLoop]⟩
  | cons each rest ih =>
    intro d acc hnd hstr
    obtain ⟨d1, h1⟩ := mergeLabels_normalized each d (hnd each (List.mem_cons_self _ _))
      (hstr each (List.mem_cons_self _ _))
    obtain ⟨d2, h2⟩ := ih d1 (acc ++ [normalized each])
      (fun e he => hnd e (List.mem_cons_of_mem _ he))
      (fun e he => hstr e (List.mem_cons_of_mem _ he))
    refine ⟨d2, ?_⟩
    simp only [mergeLoop, h1]
    show mergeLoop rest d1 (acc ++ [normalized each]) = _
    rw [h2]
    simp

theorem mapGet_filter {V : Type} (zero : V) (p : String → Bool) (m : List (String × V))
    (key : String) (hk : p key = true) :
    mapGet zero (m.filter (fun kv => p kv.1)) key = mapGet zero m key := by
  induction m with
  | nil => rfl
  | cons kv rest ih =>
    obtain ⟨k, v⟩ := kv
    by_cases hp : p k = true
    · simp only [List.filter_cons, hp, if_true, mapGet, ih]
    · by_cases hkk : k = key
      · subst hkk; exact absurd hk hp
      · simp only [List.filter_cons, hp, if_false, mapGet, hkk, ih]
        simp [ih]

/-- C9: when the label keys of every raw alert are distinct (they are the keys
of a map) and the recognised labels hold strings, `mergeData` does not panic and
appends one normalised record per raw alert, in arrival order: name, service,
tag and severity are the strings under alertname, service, tag and severity
(empty when absent), the instants are copied, and labels under other keys do
not change the record. -/
theorem mergeData_normalizes (amdata : amData) (allAlertData : List alertData)
    (hkeys : ∀ each ∈ amdata.Data, (each.Labels.map Prod.fst).Nodup)
    (hstr : ∀ each ∈ amdata.Data, ∀ kv ∈ each.Labels, recognised kv.1 = true →
      ∃ s, kv.2 = Value.str s) :
    (mergeData amdata allAlertData).map Prod.snd
      = some (allAlertData ++ amdata.Data.map normalized) ∧
    (∀ each : amJSON, normalized each =
      ⟨labelString each.Labels "alertname", labelString each.Labels "service",
        labelString each.Labels "tag", labelString each.Labels "severity",
        each.StartsAt, each.EndsAt⟩) ∧
    (∀ each : amJSON, normalized each
      = normalized { each with Labels := each.Labels.filter (fun kv => recognised kv.1) }) := by
  refine ⟨?_, fun _ => rfl, ?_⟩
  · obtain ⟨d, hd⟩ := mergeLoop_spec amdata.Data [] allAlertData hkeys hstr
    simp [mergeData, hd]
  · intro each
    simp only [normalized, labelString]
    rw [mapGet_filter Value.null recognised each.Labels "alertname" (by decide),
      mapGet_filter Value.null recognised each.Labels "service" (by decide),
      mapGet_filter Value.null recognised each.Labels "tag" (by decide),
      mapGet_filter Value.null recognised each.Labels "severity" (by decide)]

/-- Witness of C9 on two raw alerts, one of them with a further label. -/
theorem mergeData_normalizes_witness :
    (∀ each ∈ sampleData.Data, (each.Labels.map Prod.fst).Nodup) ∧
    (mergeData sampleData [hourFirst]).map Prod.snd
      = some ([hourFirst] ++ sampleData.Data.map normalized) ∧
    sampleData.Data.map normalized =
      [⟨"ssb-OTG0058113", "SSB", "cms", "high", ⟨1609459200, 0, UTC⟩, sentinel⟩,
       ⟨"ggus-1", "", "", "", ⟨1609459300, 0, UTC⟩, ⟨1609462800, 0, UTC⟩⟩] :=
  ⟨by decide,
    (mergeData_normalizes sampleData [hourFirst] (by decide)
      (by
        intro each he kv hkv hr
        simp only [sampleData, List.mem_cons, List.mem_singleton, List.not_mem_nil, or_false] at he
        rcases he with rfl | rfl <;>
          simp only [List.mem_cons, List.mem_singleton, List.not_mem_nil, or_false] at hkv
        · rcases hkv with rfl | rfl | rfl | rfl | rfl
          · exact ⟨_, rfl⟩
          · exact ⟨_, rfl⟩
          · exact ⟨_, rfl⟩
          · exact ⟨_, rfl⟩
          · exact absurd hr (by decide)
        · subst hkv; exact ⟨_, rfl⟩)).1,
    by decide⟩

/-! ### Filtering: the membership set -/

theorem mapSet_keys_mem {V : Type} (m : List (String × V)) (k : String) (v : V) (key : String) :
    key ∈ (mapSet m k v).map Prod.fst ↔ key = k ∨ key ∈ m.map Prod.fst := by
  induction m with
  | nil => simp [mapSet]
  | cons kv rest ih =>
    obtain ⟨k0, v0⟩ := kv
    by_cases h : k0 = k
    · subst h; simp [mapSet]
    · simp only [mapSet, h, if_false, List.map_cons, List.mem_cons, ih]
      tauto

theorem mapSet_nodup {V : Type} (m : List (String × V)) (k : String) (v : V)
    (h : (m.map Prod.fst).Nodup) : ((mapSet m k v).map Prod.fst).Nodup := by
  induction m with
  | nil => simp [mapSet]
  | cons kv rest ih =>
    obtain ⟨k0, v0⟩ := kv
    simp only [List.map_cons, List.nodup_cons] at h
    by_cases hk : k0 = k
    · subst hk; simpa [mapSet] using h
    · simp only [mapSet, hk, if_false, List.map_cons, List.nodup_cons, mapSet_keys_mem]
      refine ⟨?_, ih h.2⟩
      rintro (h1 | h1)
      · exact h1.elim
      · exact h.1 h1

theorem mapGet_mapSet {V : Type} (zero : V) (m : List (String × V)) (k : String) (v : V)
    (key : String) :
    mapGet zero (mapSet m k v) key = if key = k then v else mapGet zero m key := by
  induction m with
  | nil =>
    by_cases h : key = k
    · subst h; simp [mapSet, mapGet]
    · have h2 : ¬ (k = key) := fun e => h e.symm
      simp [mapSet, mapGet, h, h2]
  | cons kv rest ih =>
    obtain ⟨k0, v0⟩ := kv
    by_cases hk : k0 = k
    · subst hk
      by_cases h : key = k0
      · subst h; simp [mapSet, mapGet]
      · have h2 : ¬ (k0 = key) := fun e => h e.symm
        simp [mapSet, mapGet, h, h2]
    · by_cases h0 : k0 = key
      · subst h0
        simp [mapSet, mapGet, hk]
      · simp [mapSet, mapGet, hk, h0, ih]

theorem filterLoop_empty_spec :
    ∀ (l : List alertData) (m : List (String × Int)), (m.map Prod.fst).Nodup →
      ((filterLoop "" "" "" l m).map Prod.fst).Nodup ∧
      (∀ key, key ∈ (filterLoop "" "" "" l m).map Prod.fst ↔
        key ∈ m.map Prod.fst ∨ key ∈ l.map (fun each => each.Name)) ∧
      (∀ key, (mapGet 0 m key = 1 ∨ key ∈ l.map (fun each => each.Name)) →
        mapGet 0 (filterLoop "" "" "" l m) key = 1) := by
  intro l
  induction l with
  | nil => intro m hm; simp [filterLoop, hm]
  | cons each rest ih =>
    intro m hm
    have hf : filterHelper "" "" "" each = 1 := by simp [filterHelper]
    obtain ⟨i1, i2, i3⟩ := ih (mapSet m each.Name 1) (mapSet_nodup m each.Name 1 hm)
    simp only [filterLoop, hf, one_ne_zero, if_false]
    refine ⟨i1, ?_, ?_⟩
    · intro key
      rw [i2 key, mapSet_keys_mem]
      simp only [List.map_cons, List.mem_cons]
      tauto
    · intro key hkey
      apply i3
      rw [mapGet_mapSet]
      by_cases hk : key = each.Name
      · simp [hk]
      · simp only [hk, if_false]
        simp only [List.map_cons, List.mem_cons, hk, false_or] at hkey
        exact hkey

/-- C10 (as stated, refuted): two records of the same name both pass the
empty criteria, and the membership set has one entry. -/
theorem filter_duplicate_names :
    (filter "" "" "" [hourFirst, hourFirstTwin]).length = 1 ∧
      [hourFirst, hourFirstTwin].length = 2 ∧
      filterHelper "" "" "" hourFirst = 1 ∧ filterHelper "" "" "" hourFirstTwin = 1 := by
  decide

/-- C10 (amended): with the three criteria empty every record passes and its
name reads 1 in the membership set; the set has as many entries as there are
distinct names, which is the number of records when no two share a name. -/
theorem filter_all_empty (l : List alertData) :
    (∀ each ∈ l, filterHelper "" "" "" each = 1 ∧
      mapGet 0 (filter "" "" "" l) each.Name = 1) ∧
    (filter "" "" "" l).length = (l.map (fun each => each.Name)).toFinset.card ∧
    ((l.map (fun each => each.Name)).Nodup → (filter "" "" "" l).length = l.length) := by
  obtain ⟨h1, h2, h3⟩ := filterLoop_empty_spec l [] (by simp)
  change ((filter "" "" "" l).map Prod.fst).Nodup at h1
  have hlen : (filter "" "" "" l).length = (l.map (fun each => each.Name)).toFinset.card := by
    have e1 : (filter "" "" "" l).length = ((filter "" "" "" l).map Prod.fst).toFinset.card := by
      rw [List.toFinset_card_of_nodup h1, List.length_map]
    rw [e1]
    congr 1
    ext key
    simp only [List.mem_toFinset]
    rw [show filter "" "" "" l = filterLoop "" "" "" l [] from rfl, h2 key]
    simp
  refine ⟨?_, hlen, ?_⟩
  · intro each he
    refine ⟨by simp [filterHelper], ?_⟩
    exact h3 each.Name (Or.inr (List.mem_map_of_mem _ he))
  · intro hnd
    rw [hlen, List.toFinset_card_of_nodup hnd, List.length_map]

/-! ### The components of diff: calendar arithmetic and bounds

`civilFromDays` is taken apart into era, year of era, day of year and month
(counted from March); the order of days is the order of (year, month, day),
and day 32 of a month falls on day 32 - (length of the month) of the next. -/

theorem yoe_bounds (doe yoe : Int) (h0 : 0 ≤ doe) (h1 : doe ≤ 146096)
    (hy : yoe = (doe - doe / 1460 + doe / 36524 - doe / 146096) / 365) :
    0 ≤ yoe ∧ yoe ≤ 399 ∧ 0 ≤ doe - (365 * yoe + yoe / 4 - yoe / 100) ∧
      doe - (365 * yoe + yoe / 4 - yoe / 100) ≤ 365 := by
  have hc : doe / 36524 = 0 ∨ doe / 36524 = 1 ∨ doe / 36524 = 2 ∨ doe / 36524 = 3 ∨
      doe / 36524 = 4 := by omega
  have hg : yoe / 100 = 0 ∨ yoe / 100 = 1 ∨ yoe / 100 = 2 ∨ yoe / 100 = 3 := by omega
  rcases hc with hc | hc | hc | hc | hc <;> rcases hg with hg | hg | hg | hg <;> omega

theorem yearStart_step (k1 k2 : Int) (h0 : 0 ≤ k1) (h12 : k1 < k2) (h2 : k2 ≤ 399) :
    365 * k1 + k1 / 4 - k1 / 100 + 365 ≤ 365 * k2 + k2 / 4 - k2 / 100 := by
  have hg1 : k1 / 100 = 0 ∨ k1 / 100 = 1 ∨ k1 / 100 = 2 ∨ k1 / 100 = 3 := by omega
  have hg2 : k2 / 100 = 0 ∨ k2 / 100 = 1 ∨ k2 / 100 = 2 ∨ k2 / 100 = 3 := by omega
  rcases hg1 with hg1 | hg1 | hg1 | hg1 <;> rcases hg2 with hg2 | hg2 | hg2 | hg2 <;> omega

theorem yoe_mono (doe1 doe2 yoe1 yoe2 : Int) (h0 : 0 ≤ doe1) (h12 : doe1 ≤ doe2)
    (h1 : doe2 ≤ 146096)
    (hy1 : yoe1 = (doe1 - doe1 / 1460 + doe1 / 36524 - doe1 / 146096) / 365)
    (hy2 : yoe2 = (doe2 - doe2 / 1460 + doe2 / 36524 - doe2 / 146096) / 365) :
    yoe1 ≤ yoe2 := by
  by_contra hlt
  have hlt2 : yoe2 < yoe1 := by omega
  have b1 := yoe_bounds doe1 yoe1 h0 (by omega) hy1
  have b2 := yoe_bounds doe2 yoe2 (by omega) h1 hy2
  have st := yearStart_step yoe2 yoe1 b2.1 hlt2 b1.2.1
  have heq : doe1 = doe2 := by
    obtain ⟨_, _, b13, _⟩ := b1
    obtain ⟨_, _, _, b24⟩ := b2
    generalize yoe1 / 4 = a1 at *
    generalize yoe1 / 100 = c1 at *
    generalize yoe2 / 4 = a2 at *
    generalize yoe2 / 100 = c2 at *
    clear hy1 hy2
    omega
  subst heq
  rw [hy1, hy2] at hlt2
  exact lt_irrefl _ hlt2

theorem yoe_start (yoe doe y2 : Int) (h0 : 0 ≤ yoe) (h1 : yoe ≤ 399)
    (hd : doe = 365 * yoe + yoe / 4 - yoe / 100)
    (hy : y2 = (doe - doe / 1460 + doe / 36524 - doe / 146096) / 365) :
    y2 = yoe := by
  have hg : yoe / 100 = 0 ∨ yoe / 100 = 1 ∨ yoe / 100 = 2 ∨ yoe / 100 = 3 := by omega
  have hc : doe / 36524 = yoe / 100 := by
    rcases hg with hg | hg | hg | hg <;> omega
  have hq : doe / 1460 = yoe / 4 := by
    rcases hg with hg | hg | hg | hg <;> omega
  have he : doe / 146096 = 0 := by omega
  rw [hc, hq, he] at hy
  omega

theorem month_bounds (doy mp d : Int) (h0 : 0 ≤ doy) (h1 : doy ≤ 365)
    (hm : mp = (5 * doy + 2) / 153) (hd : d = doy - (153 * mp + 2) / 5 + 1) :
    0 ≤ mp ∧ mp ≤ 11 ∧ 1 ≤ d ∧ d ≤ 31 := by
  omega

theorem month_start (mp doy m2 : Int) (hd : doy = (153 * mp + 2) / 5)
    (hm : m2 = (5 * doy + 2) / 153) : m2 = mp := by
  omega

theorem civil_internals (z : Int) : ∃ era doe yoe doy mp : Int,
    era = (z + 719468) / 146097 ∧ doe = z + 719468 - era * 146097 ∧
    yoe = (doe - doe / 1460 + doe / 36524 - doe / 146096) / 365 ∧
    doy = doe - (365 * yoe + yoe / 4 - yoe / 100) ∧ mp = (5 * doy + 2) / 153 ∧
    0 ≤ doe ∧ doe ≤ 146096 ∧ 0 ≤ yoe ∧ yoe ≤ 399 ∧ 0 ≤ doy ∧ doy ≤ 365 ∧ 0 ≤ mp ∧ mp ≤ 11 ∧
    1 ≤ doy - (153 * mp + 2) / 5 + 1 ∧ doy - (153 * mp + 2) / 5 + 1 ≤ 31 ∧
    civilFromDays z = (if mp < 10 then yoe + era * 400 else yoe + era * 400 + 1,
      if mp < 10 then mp + 3 else mp - 9, doy - (153 * mp + 2) / 5 + 1) := by
  refine ⟨(z + 719468) / 146097, z + 719468 - (z + 719468) / 146097 * 146097, _, _, _,
    rfl, rfl, rfl, rfl, rfl, ?_⟩
  generalize hera : (z + 719468) / 146097 = era
  generalize hdoe : z + 719468 - era * 146097 = doe
  have hd0 : 0 ≤ doe ∧ doe ≤ 146096 := by omega
  generalize hyoe : (doe - doe / 1460 + doe / 36524 - doe / 146096) / 365 = yoe
  have hb := yoe_bounds doe yoe hd0.1 hd0.2 hyoe.symm
  generalize hdoy : doe - (365 * yoe + yoe / 4 - yoe / 100) = doy at hb ⊢
  generalize hmp : (5 * doy + 2) / 153 = mp
  have hm := month_bounds doy mp _ hb.2.2.1 hb.2.2.2 hmp.symm rfl
  refine ⟨hd0.1, hd0.2, hb.1, hb.2.1, hb.2.2.1, hb.2.2.2, hm.1, hm.2.1, hm.2.2.1, hm.2.2.2, ?_⟩
  simp only [civilFromDays, hera, hdoe, hyoe, hdoy, hmp]
  by_cases h10 : mp < 10
  · have h2 : ¬ (mp + 3 ≤ 2) := by omega
    simp only [h10, if_true, h2, if_false]
  · have h2 : mp - 9 ≤ 2 := by omega
    simp only [h10, if_false, h2, if_true]

theorem month_mono (doy1 doy2 mp1 mp2 : Int) (h12 : doy1 ≤ doy2)
    (hm1 : mp1 = (5 * doy1 + 2) / 153) (hm2 : mp2 = (5 * doy2 + 2) / 153) : mp1 ≤ mp2 := by
  omega

theorem civil_ranges (z : Int) :
    1 ≤ (civilFromDays z).2.1 ∧ (civilFromDays z).2.1 ≤ 12 ∧
      1 ≤ (civilFromDays z).2.2 ∧ (civilFromDays z).2.2 ≤ 31 := by
  obtain ⟨era, doe, yoe, doy, mp, -, -, -, -, -, -, -, -, -, -, -, hm0, hm1, hd0, hd1, hc⟩ :=
    civil_internals z
  rw [hc]
  refine ⟨?_, ?_, hd0, hd1⟩
  · show 1 ≤ if mp < 10 then mp + 3 else mp - 9
    split <;> omega
  · show (if mp < 10 then mp + 3 else mp - 9) ≤ 12
    split <;> omega

theorem civil_mono (z1 z2 : Int) (h : z1 ≤ z2) :
    12 * (civilFromDays z1).1 + (civilFromDays z1).2.1
        < 12 * (civilFromDays z2).1 + (civilFromDays z2).2.1 ∨
      (12 * (civilFromDays z1).1 + (civilFromDays z1).2.1
          = 12 * (civilFromDays z2).1 + (civilFromDays z2).2.1 ∧
        (civilFromDays z2).2.2 - (civilFromDays z1).2.2 = z2 - z1) := by
  obtain ⟨era1, doe1, yoe1, doy1, mp1, he1, hd1, hy1, hdy1, hm1, b1⟩ := civil_internals z1
  obtain ⟨era2, doe2, yoe2, doy2, mp2, he2, hd2, hy2, hdy2, hm2, b2⟩ := civil_internals z2
  obtain ⟨b10, b11, b12, b13, b14, b15, b16, b17, b18, b19, hc1⟩ := b1
  obtain ⟨b20, b21, b22, b23, b24, b25, b26, b27, b28, b29, hc2⟩ := b2
  rw [hc1, hc2]
  have hN1 : 12 * (if mp1 < 10 then yoe1 + era1 * 400 else yoe1 + era1 * 400 + 1)
      + (if mp1 < 10 then mp1 + 3 else mp1 - 9) = 12 * (yoe1 + era1 * 400) + mp1 + 3 := by
    split <;> omega
  have hN2 : 12 * (if mp2 < 10 then yoe2 + era2 * 400 else yoe2 + era2 * 400 + 1)
      + (if mp2 < 10 then mp2 + 3 else mp2 - 9) = 12 * (yoe2 + era2 * 400) + mp2 + 3 := by
    split <;> omega
  simp only [hN1, hN2]
  have hera : era1 ≤ era2 := by omega
  by_cases hee : era1 = era2
  · subst hee
    have hdoe : doe1 ≤ doe2 := by omega
    have hyy := yoe_mono doe1 doe2 yoe1 yoe2 b10 hdoe b21 hy1 hy2
    by_cases hye : yoe1 = yoe2
    · subst hye
      have hdd : doy1 ≤ doy2 := by omega
      have hmm := month_mono doy1 doy2 mp1 mp2 hdd hm1 hm2
      by_cases hme : mp1 = mp2
      · subst hme
        right
        refine ⟨rfl, ?_⟩
        show doy2 - (153 * mp1 + 2) / 5 + 1 - (doy1 - (153 * mp1 + 2) / 5 + 1) = z2 - z1
        omega
      · left; omega
    · left; omega
  · left; omega

theorem civil_first (z : Int) :
    civilFromDays (z - (civilFromDays z).2.2 + 1)
      = ((civilFromDays z).1, (civilFromDays z).2.1, 1) := by
  obtain ⟨era, doe, yoe, doy, mp, he, hd, hy, hdy, hm, b0, b1, b2, b3, b4, b5, b6, b7, b8, b9, hc⟩ :=
    civil_internals z
  obtain ⟨era2, doe2, yoe2, doy2, mp2, he2, hd2, hy2, hdy2, hm2, c0, c1, c2, c3, c4, c5, c6, c7,
    c8, c9, hc2⟩ := civil_internals (z - (civilFromDays z).2.2 + 1)
  rw [hc2, hc]
  rw [hc] at he2 hd2
  simp only at he2 hd2
  -- the first day of the month lies in the same era, year and month
  generalize hsm : (153 * mp + 2) / 5 = sm at *
  have hsm0 : 0 ≤ sm := by omega
  generalize hys : 365 * yoe + yoe / 4 - yoe / 100 = ys at *
  have hys0 : 0 ≤ ys := by omega
  have hera : era2 = era := by omega
  subst hera
  have hdoe : doe2 = ys + sm := by omega
  have hy_lo : yoe ≤ yoe2 := by
    have e := yoe_start yoe ys _ b2 b3 hys.symm rfl
    have m := yoe_mono ys doe2 _ yoe2 hys0 (by omega) c1 rfl hy2
    rw [e] at m
    exact m
  have hy_hi : yoe2 ≤ yoe := yoe_mono doe2 doe yoe2 yoe c0 (by omega) b1 hy2 hy
  have hyeq : yoe2 = yoe := le_antisymm hy_hi hy_lo
  subst hyeq
  have hdoy : doy2 = sm := by
    rw [hdy2, hys, hdoe]; omega
  have hmp : mp2 = mp := month_start mp doy2 mp2 (by rw [hdoy, hsm]) hm2
  subst hmp
  rw [hdoy, hsm]
  simp

theorem daysFromCivil_first (z : Int) :
    daysFromCivil (civilFromDays z).1 (civilFromDays z).2.1 1 = z - (civilFromDays z).2.2 + 1 := by
  obtain ⟨era, doe, yoe, doy, mp, he, hd, hy, hdy, hm, b0, b1, b2, b3, b4, b5, b6, b7, b8, b9, hc⟩ :=
    civil_internals z
  rw [hc]
  simp only [daysFromCivil]
  by_cases h10 : mp < 10
  · have h2 : ¬ (mp + 3 ≤ 2) := by omega
    have h3 : mp + 3 > 2 := by omega
    simp only [h10, if_true, h2, if_false, h3]
    have e1 : (yoe + era * 400) / 400 = era := by omega
    rw [e1]
    have e2 : yoe + era * 400 - era * 400 = yoe := by omega
    rw [e2]
    have e3 : mp + 3 - 3 = mp := by omega
    rw [e3]
    omega
  · have h2 : mp - 9 ≤ 2 := by omega
    have h3 : ¬ (mp - 9 > 2) := by omega
    simp only [h10, if_false, h2, if_true, h3]
    have e0 : yoe + era * 400 + 1 - 1 = yoe + era * 400 := by omega
    rw [e0]
    have e1 : (yoe + era * 400) / 400 = era := by omega
    rw [e1]
    have e2 : yoe + era * 400 - era * 400 = yoe := by omega
    rw [e2]
    have e3 : mp - 9 + 9 = mp := by omega
    rw [e3]
    omega

theorem day32_bound (z : Int) :
    1 ≤ (civilFromDays (daysFromCivil (civilFromDays z).1 (civilFromDays z).2.1 1 + 31)).2.2 ∧
      (civilFromDays (daysFromCivil (civilFromDays z).1 (civilFromDays z).2.1 1 + 31)).2.2
        + (civilFromDays z).2.2 ≤ 32 := by
  rw [daysFromCivil_first]
  have r := civil_ranges z
  generalize hz2 : z - (civilFromDays z).2.2 + 1 + 31 = z2
  have r2 := civil_ranges z2
  refine ⟨r2.2.2.1, ?_⟩
  have hlt : z < z2 := by omega
  have m1 := civil_mono z z2 (by omega)
  have hN : 12 * (civilFromDays z).1 + (civilFromDays z).2.1
      < 12 * (civilFromDays z2).1 + (civilFromDays z2).2.1 := by
    rcases m1 with m1 | ⟨_, m1⟩
    · exact m1
    · omega
  have hf := civil_first z2
  by_contra hcon
  have hle : z2 - (civilFromDays z2).2.2 + 1 ≤ z := by omega
  have m2 := civil_mono _ _ hle
  rw [hf] at m2
  simp only at m2
  omega

theorem timeDate_day32 (y M : Int) (h1 : 1 ≤ M) (h2 : M ≤ 12) :
    (timeDate y M 32 0 0 0 UTC).Day = (civilFromDays (daysFromCivil y M 1 + 31)).2.2 := by
  have e1 : (M - 1) / 12 = 0 := by omega
  have e2 : (M - 1) % 12 + 1 = M := by omega
  simp only [timeDate, Time.Day, Time.Date, Time.wallSeconds, UTC, e1, e2]
  have e3 : y + 0 = y := by omega
  rw [e3]
  generalize daysFromCivil y M 1 = F
  have e4 : ((F + (32 - 1)) * 86400 + 0 * 3600 + 0 * 60 + 0 - 0 + 0) / 86400 = F + 31 := by omega
  rw [e4]

theorem pair_ite (c : Prop) [Decidable c] (x1 y1 x2 y2 : Int) (p : Int × Int)
    (hp : p = if c then (x1, y1) else (x2, y2)) :
    (c ∧ p.1 = x1 ∧ p.2 = y1) ∨ (¬ c ∧ p.1 = x2 ∧ p.2 = y2) := by
  subst hp
  by_cases h : c <;> simp [h]

theorem diffFields_steps (a b : Time) : ∃ p1 p2 p3 p4 p5 : Int × Int,
    p1 = (if b.Clock.2.2 - a.Clock.2.2 < 0
      then (b.Clock.2.2 - a.Clock.2.2 + 60, b.Clock.2.1 - a.Clock.2.1 - 1)
      else (b.Clock.2.2 - a.Clock.2.2, b.Clock.2.1 - a.Clock.2.1)) ∧
    p2 = (if p1.2 < 0 then (p1.2 + 60, b.Clock.1 - a.Clock.1 - 1)
      else (p1.2, b.Clock.1 - a.Clock.1)) ∧
    p3 = (if p2.2 < 0 then (p2.2 + 24, b.Date.2.2 - a.Date.2.2 - 1)
      else (p2.2, b.Date.2.2 - a.Date.2.2)) ∧
    p4 = (if p3.2 < 0
      then (p3.2 + (32 - (timeDate a.Date.1 a.Date.2.1 32 0 0 0 UTC).Day),
        b.Date.2.1 - a.Date.2.1 - 1)
      else (p3.2, b.Date.2.1 - a.Date.2.1)) ∧
    p5 = (if p4.2 < 0 then (p4.2 + 12, b.Date.1 - a.Date.1 - 1)
      else (p4.2, b.Date.1 - a.Date.1)) ∧
    diffFields a b = [p5.2, p5.1, p4.1, p3.1, p2.1, p1.1] :=
  ⟨_, _, _, _, _, rfl, rfl, rfl, rfl, rfl, rfl⟩

theorem clock_borrow (sa sb a1 b1 a2 b2 : Int) (hsa0 : 0 ≤ sa ∧ sa < 86400)
    (hsb0 : 0 ≤ sb ∧ sb < 86400)
    (q1 : sb % 60 - sa % 60 < 0 ∧ a1 = sb % 60 - sa % 60 + 60 ∧
        b1 = sb % 3600 / 60 - sa % 3600 / 60 - 1 ∨
      ¬ sb % 60 - sa % 60 < 0 ∧ a1 = sb % 60 - sa % 60 ∧ b1 = sb % 3600 / 60 - sa % 3600 / 60)
    (q2 : b1 < 0 ∧ a2 = b1 + 60 ∧ b2 = sb / 3600 - sa / 3600 - 1 ∨
      ¬ b1 < 0 ∧ a2 = b1 ∧ b2 = sb / 3600 - sa / 3600) :
    0 ≤ a1 ∧ a1 ≤ 59 ∧ 0 ≤ a2 ∧ a2 ≤ 59 ∧ -24 ≤ b2 ∧ b2 ≤ 23 ∧ (sa ≤ sb → 0 ≤ b2) := by
  rcases q1 with q1 | q1 <;> rcases q2 with q2 | q2 <;> omega

theorem date_borrow (y1 M1 d1 y2 M2 d2 T za zb sa sb b2 a3 b3 a4 b4 a5 b5 : Int)
    (hr1 : 1 ≤ M1 ∧ M1 ≤ 12 ∧ 1 ≤ d1 ∧ d1 ≤ 31) (hr2 : 1 ≤ M2 ∧ M2 ≤ 12 ∧ 1 ≤ d2 ∧ d2 ≤ 31)
    (hT : 1 ≤ T ∧ T + d1 ≤ 32)
    (hm : 12 * y1 + M1 < 12 * y2 + M2 ∨ 12 * y1 + M1 = 12 * y2 + M2 ∧ d2 - d1 = zb - za)
    (hzz : za < zb ∨ za = zb ∧ sa ≤ sb)
    (hb2 : -24 ≤ b2 ∧ b2 ≤ 23 ∧ (sa ≤ sb → 0 ≤ b2))
    (q3 : b2 < 0 ∧ a3 = b2 + 24 ∧ b3 = d2 - d1 - 1 ∨ ¬ b2 < 0 ∧ a3 = b2 ∧ b3 = d2 - d1)
    (q4 : b3 < 0 ∧ a4 = b3 + (32 - T) ∧ b4 = M2 - M1 - 1 ∨ ¬ b3 < 0 ∧ a4 = b3 ∧ b4 = M2 - M1)
    (q5 : b4 < 0 ∧ a5 = b4 + 12 ∧ b5 = y2 - y1 - 1 ∨ ¬ b4 < 0 ∧ a5 = b4 ∧ b5 = y2 - y1) :
    0 ≤ b5 ∧ 0 ≤ a5 ∧ a5 ≤ 11 ∧ 0 ≤ a4 ∧ a4 ≤ 30 ∧ 0 ≤ a3 ∧ a3 ≤ 23 := by
  rcases q3 with q3 | q3 <;> rcases q4 with q4 | q4 <;> rcases q5 with q5 | q5 <;>
    rcases hm with hm | hm <;> rcases hzz with hzz | hzz <;> omega

theorem diffFields_bounds (a b : Time) (hw : a.wallSeconds ≤ b.wallSeconds)
    (y mo d h mi s : Int) (hd : diffFields a b = [y, mo, d, h, mi, s]) :
    0 ≤ y ∧ 0 ≤ mo ∧ mo ≤ 11 ∧ 0 ≤ d ∧ d ≤ 30 ∧ 0 ≤ h ∧ h ≤ 23 ∧ 0 ≤ mi ∧ mi ≤ 59 ∧
      0 ≤ s ∧ s ≤ 59 := by
  obtain ⟨p1, p2, p3, p4, p5, h1, h2, h3, h4, h5, hl⟩ := diffFields_steps a b
  rw [hl] at hd
  simp only [List.cons.injEq, and_true] at hd
  obtain ⟨e1, e2, e3, e4, e5, e6⟩ := hd
  subst e1 e2 e3 e4 e5 e6
  have q1 := pair_ite _ _ _ _ _ p1 h1
  have q2 := pair_ite _ _ _ _ _ p2 h2
  have q3 := pair_ite _ _ _ _ _ p3 h3
  have q4 := pair_ite _ _ _ _ _ p4 h4
  have q5 := pair_ite _ _ _ _ _ p5 h5
  clear h1 h2 h3 h4 h5 hl
  simp only [Time.Date, Time.Clock] at q1 q2 q3 q4 q5
  generalize a.wallSeconds = wa at *
  generalize b.wallSeconds = wb at *
  have hr1 := civil_ranges (wa / 86400)
  have hr2 := civil_ranges (wb / 86400)
  have hm := civil_mono (wa / 86400) (wb / 86400) (by omega)
  have hT := day32_bound (wa / 86400)
  rw [← timeDate_day32 _ _ hr1.1 hr1.2.1] at hT
  generalize civilFromDays (wa / 86400) = ca at *
  generalize civilFromDays (wb / 86400) = cb at *
  obtain ⟨y1, M1, d1⟩ := ca
  obtain ⟨y2, M2, d2⟩ := cb
  simp only at hr1 hr2 hm hT q3 q4 q5
  generalize (timeDate y1 M1 32 0 0 0 UTC).Day = T at *
  obtain ⟨a1, b1⟩ := p1
  obtain ⟨a2, b2⟩ := p2
  obtain ⟨a3, b3⟩ := p3
  obtain ⟨a4, b4⟩ := p4
  obtain ⟨a5, b5⟩ := p5
  simp only at q1 q2 q3 q4 q5 ⊢
  generalize hza : wa / 86400 = za at *
  generalize hzb : wb / 86400 = zb at *
  generalize hsa : wa % 86400 = sa at *
  generalize hsb : wb % 86400 = sb at *
  have hsa0 : 0 ≤ sa ∧ sa < 86400 := by omega
  have hsb0 : 0 ≤ sb ∧ sb < 86400 := by omega
  have hzz : za < zb ∨ (za = zb ∧ sa ≤ sb) := by omega
  clear hza hzb hsa hsb hw
  have hc := clock_borrow sa sb a1 b1 a2 b2 hsa0 hsb0 q1 q2
  have hdm := date_borrow y1 M1 d1 y2 M2 d2 T za zb sa sb b2 a3 b3 a4 b4 a5 b5 hr1 hr2 hT hm hzz
    ⟨hc.2.2.2.2.1, hc.2.2.2.2.2.1, hc.2.2.2.2.2.2⟩ q3 q4 q5
  exact ⟨hdm.1, hdm.2.1, hdm.2.2.1, hdm.2.2.2.1, hdm.2.2.2.2.1, hdm.2.2.2.2.2.1, hdm.2.2.2.2.2.2,
    hc.2.2.1, hc.2.2.2.1, hc.1, hc.2.1⟩

/-- C11: for every pair of instants, in either order and in whatever
locations (so for UTC instants in particular), `diff` returns exactly six
components, years, months, days, hours, minutes, seconds, none of them
negative, with months at most 11, days at most 30, hours at most 23, minutes
and seconds at most 59; the components the renderer leaves out (those not
strictly positive) are exactly the zero ones. -/
theorem diff_components_bounded (a b : Time) :
    ∃ y mo d h mi s : Int, diff a b = [y, mo, d, h, mi, s] ∧
      0 ≤ y ∧ 0 ≤ mo ∧ mo ≤ 11 ∧ 0 ≤ d ∧ d ≤ 30 ∧ 0 ≤ h ∧ h ≤ 23 ∧ 0 ≤ mi ∧ mi ≤ 59 ∧
      0 ≤ s ∧ s ≤ 59 ∧
      (diff a b).filter (fun v => decide (0 < v)) = (diff a b).filter (fun v => decide (v ≠ 0)) := by
  have key : ∀ a b : Time, a.loc = b.loc →
      ∃ y mo d h mi s : Int,
        (if a.After b then diffFields b a else diffFields a b) = [y, mo, d, h, mi, s] ∧
        0 ≤ y ∧ 0 ≤ mo ∧ mo ≤ 11 ∧ 0 ≤ d ∧ d ≤ 30 ∧ 0 ≤ h ∧ h ≤ 23 ∧ 0 ≤ mi ∧ mi ≤ 59 ∧
        0 ≤ s ∧ s ≤ 59 := by
    intro a b hloc
    by_cases hab : a.After b = true
    · obtain ⟨y, mo, d, h, mi, s, hd⟩ := diffFields_components b a
      have hw : b.wallSeconds ≤ a.wallSeconds := by
        rw [After_iff] at hab
        simp only [Time.wallSeconds, hloc]
        omega
      refine ⟨y, mo, d, h, mi, s, ?_, diffFields_bounds b a hw y mo d h mi s hd⟩
      simp only [hab, if_true, hd]
    · have habf : a.After b = false := by simpa using hab
      obtain ⟨y, mo, d, h, mi, s, hd⟩ := diffFields_components a b
      have hw : a.wallSeconds ≤ b.wallSeconds := by
        rw [After_false_iff] at habf
        simp only [Time.wallSeconds, hloc]
        omega
      refine ⟨y, mo, d, h, mi, s, ?_, diffFields_bounds a b hw y mo d h mi s hd⟩
      simp only [habf, Bool.false_eq_true, if_false, hd]
  have hdiff : ∃ b2 : Time, a.loc = b2.loc ∧
      diff a b = (if a.After b2 then diffFields b2 a else diffFields a b2) := by
    by_cases hl : a.loc = b.loc
    · exact ⟨b, hl, by simp [diff, hl]⟩
    · exact ⟨b.In a.loc, rfl, by simp [diff, hl]⟩
  obtain ⟨b2, hl2, he⟩ := hdiff
  obtain ⟨y, mo, d, h, mi, s, hd, h1, h2, h3, h4, h5, h6, h7, h8, h9, h10, h11⟩ := key a b2 hl2
  rw [← he] at hd
  refine ⟨y, mo, d, h, mi, s, hd, h1, h2, h3, h4, h5, h6, h7, h8, h9, h10, h11, ?_⟩
  rw [hd]
  apply List.filter_congr
  intro v hv
  simp only [List.mem_cons, List.mem_singleton, List.not_mem_nil, or_false] at hv
  have hv0 : 0 ≤ v := by
    rcases hv with rfl | rfl | rfl | rfl | rfl | rfl <;> assumption
  by_cases hz : v = 0
  · simp [hz]
  · have : 0 < v := by omega
    simp [hz, this]

end Alert
